import Mathlib

/-!
# Task controller of the team-productivity server

A shallow embedding of `src/server/controllers/taskController.js` together with the
schema of `src/server/models/Task.js`.

* A request carries `req.user` (an `Actor`), `req.params.id` (a string, cast to an object
  id by the model before it queries) and `req.body`.
* The Mongo collection behind the `Task` model is a list of documents in natural
  (insertion) order; `_id` values are object ids, compared by equality.
* `res.status(c).json(b)` is recorded as a `Result` holding the status code, the body,
  the collection after the call and the events handed to `io.emit`.
* The `createdAt` / `updatedAt` stamps of the `timestamps` schema option come from the
  wall clock and are not part of the embedding; a task here is the set of paths the
  schema declares, plus `_id`.
* Request bodies are JSON objects over the schema paths: a path is absent from the body,
  carries `null`, or carries a value of the type the schema gives it.
-/

namespace TaskTracker

/-! ## Data model -/

/-- An object id (`mongoose.Schema.Types.ObjectId`); `toString()` is injective, so an id
and its string form are identified. -/
abbrev ObjectId := Nat

/-- A JavaScript `Date`, reduced to what the controller reads from it:
`getFullYear()`, `getMonth()` (0 to 11) and the remainder of the instant. -/
structure Date where
  year : Int
  month : Fin 12
  rest : Nat
deriving DecidableEq, Repr

/-- A document of the `Task` model (`taskSchema`). `title`, `assignedTo` and `createdBy`
are required and dereferenced unguarded by the controller; `status`, `priority` and
`dueDate` are tested for absence by the controller, `description` and `completedAt` are
optional in the schema. -/
structure Task where
  _id : ObjectId
  title : String
  description : Option String
  assignedTo : ObjectId
  createdBy : ObjectId
  priority : Option String
  status : Option String
  dueDate : Option Date
  completedAt : Option Date
  tags : List String
deriving DecidableEq, Repr

/-- Modelled from the spec: the `User` model (`models/User.js` is not among the sources);
id, name, email, role and active flag. -/
structure User where
  _id : ObjectId
  name : String
  email : String
  role : String
  isActive : Bool
deriving DecidableEq, Repr

/-- The authenticated actor `req.user`, as far as the controller reads it. -/
structure Actor where
  id : ObjectId
  role : String
deriving DecidableEq, Repr

/-- The schema paths a request body can set to `null`. (`tags`, an array path, is always a
list in the embedding.) -/
inductive Path where
  | title
  | description
  | assignedTo
  | createdBy
  | priority
  | status
  | dueDate
  | completedAt
deriving DecidableEq, Repr

/-- The request body `req.body`: for each schema path the value it carries, if any, and in
`nulls` the paths it carries as `null`. A path that carries a value is not `null`, whatever
`nulls` says. -/
structure Body where
  title : Option String
  description : Option String
  assignedTo : Option ObjectId
  createdBy : Option ObjectId
  priority : Option String
  status : Option String
  dueDate : Option Date
  completedAt : Option Date
  tags : Option (List String)
  nulls : List Path
deriving DecidableEq, Repr

/-- The body `{}`. -/
def Body.empty : Body :=
  { title := none, description := none, assignedTo := none, createdBy := none,
    priority := none, status := none, dueDate := none, completedAt := none, tags := none,
    nulls := [] }

/-- The body carries a value for the path. -/
def Body.hasValue (body : Body) : Path → Bool
  | .title => body.title.isSome
  | .description => body.description.isSome
  | .assignedTo => body.assignedTo.isSome
  | .createdBy => body.createdBy.isSome
  | .priority => body.priority.isSome
  | .status => body.status.isSome
  | .dueDate => body.dueDate.isSome
  | .completedAt => body.completedAt.isSome

/-- The test `req.body[path] === null`. -/
def Body.isNull (body : Body) (path : Path) : Bool :=
  !body.hasValue path && body.nulls.contains path

/-- The database: the `tasks` collection and the `users` collection. -/
structure Db where
  tasks : List Task
  users : List User
deriving DecidableEq, Repr

/-- The projection `populate('assignedTo', 'name email')` substitutes for the reference. -/
structure UserRef where
  _id : ObjectId
  name : String
  email : String
deriving DecidableEq, Repr

/-- A task document after `populate('assignedTo', 'name email')`: the reference is replaced
by the projected user, or by `null` when no such user exists. -/
structure PopulatedTask where
  _id : ObjectId
  title : String
  description : Option String
  assignedTo : Option UserRef
  createdBy : ObjectId
  priority : Option String
  status : Option String
  dueDate : Option Date
  completedAt : Option Date
  tags : List String
deriving DecidableEq, Repr

/-- The events the controller hands to `io.emit(name, payload)`. -/
inductive Event where
  | taskAdded (task : Task)
  | taskUpdated (task : Task)
  | taskDeleted (id : ObjectId)
deriving DecidableEq, Repr

/-- The socket server registered through `setSocketIO`; `raises` tells whether its `emit`
throws. -/
structure SocketServer where
  raises : Bool
deriving DecidableEq, Repr

/-- The errors the `catch` blocks of the controller can meet. -/
inductive Failure where
  | validation
  | duplicateKey
  | emit
  | cast
deriving DecidableEq, Repr

/-- The JSON bodies the controller answers with. -/
inductive ResBody where
  | message (text : String)
  | errorMessage (error : Failure)
  | taskList (success : Bool) (count : Nat) (data : List PopulatedTask)
  | taskData (success : Bool) (data : Task)
  | confirmation (success : Bool) (message : String)
deriving DecidableEq, Repr

/-- What a handler leaves behind: the response and the effects on store and socket. -/
structure Result where
  status : Nat
  body : ResBody
  db : Db
  emitted : List Event
deriving DecidableEq, Repr

/-! ## Schema: setters, defaults and validators of `taskSchema` -/

/-- White space and line terminators removed by `String.prototype.trim`. -/
def isJsWhitespace (c : Char) : Bool :=
  let n := c.toNat
  n == 0x09 || n == 0x0A || n == 0x0B || n == 0x0C || n == 0x0D || n == 0x20 ||
  n == 0xA0 || n == 0x1680 || (0x2000 ≤ n && n ≤ 0x200A) || n == 0x2028 || n == 0x2029 ||
  n == 0x202F || n == 0x205F || n == 0x3000 || n == 0xFEFF

/-- Trimming on lists of characters. -/
def trimChars (cs : List Char) : List Char :=
  ((cs.dropWhile isJsWhitespace).reverse.dropWhile isJsWhitespace).reverse

/-- The setter installed by `trim: true`. -/
def jsTrim (s : String) : String := ⟨trimChars s.data⟩

/-- The `enum` of `priority`. -/
def priorityEnum : List String := ["low", "medium", "high", "urgent"]

/-- The `enum` of `status`. -/
def statusEnum : List String := ["todo", "in-progress", "completed", "cancelled"]

/-- An `enum` validator: it passes a path without a value, be it absent or `null`. -/
def enumValid (values : List String) : Option String → Bool
  | none => true
  | some v => values.contains v

/-- Document validation as run by `save()` and `create()`: `required` on `title` (a
required string must be non-empty) and `dueDate`, `enum` on `priority` and `status`.
`assignedTo` and `createdBy` are present by typing. -/
def validate (t : Task) : Bool :=
  t.title != "" && enumValid priorityEnum t.priority && enumValid statusEnum t.status &&
  t.dueDate.isSome

/-! ## Model operations -/

/-- The value of a hexadecimal digit. -/
def hexDigit (c : Char) : Option Nat :=
  if '0' ≤ c ∧ c ≤ '9' then some (c.toNat - '0'.toNat)
  else if 'a' ≤ c ∧ c ≤ 'f' then some (c.toNat - 'a'.toNat + 10)
  else if 'A' ≤ c ∧ c ≤ 'F' then some (c.toNat - 'A'.toNat + 10)
  else none

/-- The cast of a string to an object id that `Task.findById(req.params.id)` and
`Task.findByIdAndDelete(req.params.id)` apply to their argument: a string of 24 hexadecimal
digits is the id it spells, any other string makes the query reject with a `CastError`. -/
def castObjectId (param : String) : Option ObjectId :=
  if param.length = 24 then
    param.data.foldl
      (fun acc c => acc.bind (fun n => (hexDigit c).map (fun d => 16 * n + d))) (some 0)
  else none

/-- `Task.findById(id)` for an id that has passed the cast. -/
def findById (tasks : List Task) (id : ObjectId) : Option Task :=
  tasks.find? (fun t => t._id == id)

/-- The write of `task.save()`: the stored document with the `_id` of `task` is replaced. -/
def replaceDoc (task : Task) : List Task → List Task
  | [] => []
  | t :: ts => if t._id == task._id then task :: ts else t :: replaceDoc task ts

/-- `task.save()`: validation first, then the write. -/
def save (db : Db) (task : Task) : Except Failure Db :=
  if validate task then .ok { db with tasks := replaceDoc task db.tasks }
  else .error .validation

/-- The write of `Task.findByIdAndDelete(id)`: the first document with that `_id` goes. -/
def removeDoc (id : ObjectId) : List Task → List Task
  | [] => []
  | t :: ts => if t._id == id then ts else t :: removeDoc id ts

/-- `Task.findByIdAndDelete(id)`. -/
def findByIdAndDelete (db : Db) (id : ObjectId) : Db :=
  { db with tasks := removeDoc id db.tasks }

/-- The `default: 'medium'` of `priority`: it is applied to a path that is absent, not to
one that is `null`. -/
def priorityDefault (priority : Option String) (priorityNull : Bool) : Option String :=
  match priority with
  | some v => some v
  | none => if priorityNull then none else some "medium"

/-- `Task.create(fields)` for the object literal built by `createTask`: the setters and
defaults of the schema are applied (`status`, `completedAt` and `tags` are not passed, so
`status` takes its default and `tags` is empty), the document is validated and inserted
under the id `newId` generated for it; `_id` is unique in the collection. An argument is
`none` when the body has no value for it, in which case a required path fails validation,
be it absent or `null`; `priorityNull` tells that `priority` is `null`, for which the
default is not applied. -/
def create (db : Db) (newId : ObjectId) (title : Option String) (description : Option String)
    (priority : Option String) (priorityNull : Bool) (dueDate : Option Date)
    (assignedTo : Option ObjectId) (createdBy : ObjectId) : Except Failure (Task × Db) :=
  match title, assignedTo with
  | some title, some assignedTo =>
    let task : Task :=
      { _id := newId, title := jsTrim title, description := description.map jsTrim,
        assignedTo := assignedTo, createdBy := createdBy,
        priority := priorityDefault priority priorityNull, status := some "todo",
        dueDate := dueDate, completedAt := none, tags := [] }
    if validate task then
      if (findById db.tasks newId).isSome then .error .duplicateKey
      else .ok (task, { db with tasks := db.tasks ++ [task] })
    else .error .validation
  | _, _ => .error .validation

/-- The filter `{ $or: [{ createdBy: id }, { assignedTo: id }] }`. -/
def createdByOrAssignedTo (id : ObjectId) (t : Task) : Bool :=
  t.createdBy == id || t.assignedTo == id

/-- The user projection `'name email'` of the user with the given id, if any. -/
def lookupUser (users : List User) (id : ObjectId) : Option UserRef :=
  (users.find? (fun u => u._id == id)).map (fun u => { _id := u._id, name := u.name, email := u.email })

/-- The effect of `.populate('assignedTo', 'name email')` on one document. -/
def populate (users : List User) (t : Task) : PopulatedTask :=
  { _id := t._id, title := t.title, description := t.description,
    assignedTo := lookupUser users t.assignedTo, createdBy := t.createdBy,
    priority := t.priority, status := t.status, dueDate := t.dueDate,
    completedAt := t.completedAt, tags := t.tags }

/-! ## Controller -/

/-- The statement `if (io) io.emit(name, payload)`: nothing without a registered server,
an exception when the server raises, the event otherwise. -/
def emit (io : Option SocketServer) (e : Event) : Except Failure (List Event) :=
  match io with
  | none => .ok []
  | some s => if s.raises then .error .emit else .ok [e]

/-- The handler `getTasks`. -/
def getTasks (actor : Actor) (db : Db) : Result :=
  let tasks :=
    if actor.role == "admin" then db.tasks.map (populate db.users)
    else (db.tasks.filter (createdByOrAssignedTo actor.id)).map (populate db.users)
  { status := 200, body := .taskList true tasks.length tasks, db := db, emitted := [] }

/-- The handler `createTask`; `newId` is the object id generated for the new document. -/
def createTask (io : Option SocketServer) (newId : ObjectId) (actor : Actor) (body : Body)
    (db : Db) : Result :=
  match create db newId body.title body.description body.priority (body.isNull .priority)
      body.dueDate body.assignedTo actor.id with
  | .error e => { status := 500, body := .errorMessage e, db := db, emitted := [] }
  | .ok (task, db1) =>
    match emit io (.taskAdded task) with
    | .error e => { status := 500, body := .errorMessage e, db := db1, emitted := [] }
    | .ok events => { status := 201, body := .taskData true task, db := db1, emitted := events }

/-- The list `allowedFields` of `updateTask`. -/
def allowedFields : List String := ["title", "description", "status", "priority"]

/-- The step `if (req.body[field] !== undefined) task[field] = req.body[field]` for a path
in `allowedFields`, through the setter of the schema: a value is assigned, `null` empties
the path, an absent path is left alone. A `title` of `null` is accounted for by
`nullsRequired`: the copy keeps its title and `save()` is not reached. -/
def setAllowed (field : String) (body : Body) (task : Task) : Task :=
  if field == "title" then
    match body.title with
    | some v => { task with title := jsTrim v }
    | none => task
  else if field == "description" then
    match body.description with
    | some v => { task with description := some (jsTrim v) }
    | none => if body.isNull .description then { task with description := none } else task
  else if field == "status" then
    match body.status with
    | some v => { task with status := some v }
    | none => if body.isNull .status then { task with status := none } else task
  else if field == "priority" then
    match body.priority with
    | some v => { task with priority := some v }
    | none => if body.isNull .priority then { task with priority := none } else task
  else task

/-- The loop `allowedFields.forEach(field => if (req.body[field] !== undefined) ...)`. -/
def assignAllowed (body : Body) (task : Task) : Task :=
  allowedFields.foldl (fun t field => setAllowed field body t) task

/-- The call `Object.assign(task, req.body)`: every path the body carries is set, through
the setter of the schema; `null` empties the path. A `null` for `title`, `assignedTo` or
`createdBy` is accounted for by `nullsRequired`: the copy keeps the old value and `save()`
is not reached. -/
def objectAssign (body : Body) (task : Task) : Task :=
  { task with
    title := match body.title with | some v => jsTrim v | none => task.title
    description := match body.description with
      | some v => some (jsTrim v)
      | none => if body.isNull .description then none else task.description
    assignedTo := body.assignedTo.getD task.assignedTo
    createdBy := body.createdBy.getD task.createdBy
    priority := match body.priority with
      | some v => some v
      | none => if body.isNull .priority then none else task.priority
    status := match body.status with
      | some v => some v
      | none => if body.isNull .status then none else task.status
    dueDate := match body.dueDate with
      | some v => some v
      | none => if body.isNull .dueDate then none else task.dueDate
    completedAt := match body.completedAt with
      | some v => some v
      | none => if body.isNull .completedAt then none else task.completedAt
    tags := body.tags.getD task.tags }

/-- The body sets one of the given required paths to `null`. The document type keeps
`title`, `assignedTo` and `createdBy` present, so such an assignment is not made on the
copy: its only effect is that the `required` validator makes `save()` reject. -/
def nullsRequired (paths : List Path) (body : Body) : Bool :=
  paths.any body.isNull

/-- What the `catch` block answers when `save()` rejects the document. -/
def saveRejected (db : Db) : Result :=
  { status := 500, body := .errorMessage .validation, db := db, emitted := [] }

/-- The tail shared by `updateTask` and `markTaskComplete`: `await task.save()`, then
`if (io) io.emit("taskUpdated", task)`, then `res.json({ success: true, data: task })`. -/
def saveAndPublish (io : Option SocketServer) (db : Db) (task : Task) : Result :=
  match save db task with
  | .error e => { status := 500, body := .errorMessage e, db := db, emitted := [] }
  | .ok db1 =>
    match emit io (.taskUpdated task) with
    | .error e => { status := 500, body := .errorMessage e, db := db1, emitted := [] }
    | .ok events => { status := 200, body := .taskData true task, db := db1, emitted := events }

/-- The handler `updateTask`, from the point where `req.params.id` has passed the cast of
`Task.findById`. -/
def updateTask (io : Option SocketServer) (actor : Actor) (id : ObjectId) (body : Body)
    (db : Db) : Result :=
  match findById db.tasks id with
  | none => { status := 404, body := .message "Task not found", db := db, emitted := [] }
  | some task =>
    if task.assignedTo == actor.id then
      if nullsRequired [.title] body then saveRejected db
      else saveAndPublish io db (assignAllowed body task)
    else if actor.role == "admin" then
      if nullsRequired [.title, .assignedTo, .createdBy] body then saveRejected db
      else saveAndPublish io db (objectAssign body task)
    else
      { status := 403, body := .message "Not authorized", db := db, emitted := [] }

/-- The handler `deleteTask`, from the point where `req.params.id` has passed the cast. -/
def deleteTask (io : Option SocketServer) (actor : Actor) (id : ObjectId) (db : Db) : Result :=
  match findById db.tasks id with
  | none => { status := 404, body := .message "Task not found", db := db, emitted := [] }
  | some task =>
    if task.createdBy != actor.id && actor.role != "admin" then
      { status := 403, body := .message "Not authorized to delete this task", db := db,
        emitted := [] }
    else
      let db1 := findByIdAndDelete db id
      match emit io (.taskDeleted task._id) with
      | .error e => { status := 500, body := .errorMessage e, db := db1, emitted := [] }
      | .ok events =>
        { status := 200, body := .confirmation true "Task deleted successfully", db := db1,
          emitted := events }

/-- The handler `markTaskComplete`, from the point where `req.params.id` has passed the
cast. -/
def markTaskComplete (io : Option SocketServer) (actor : Actor) (id : ObjectId) (_body : Body)
    (db : Db) : Result :=
  match findById db.tasks id with
  | none => { status := 404, body := .message "Task not found", db := db, emitted := [] }
  | some task =>
    if task.assignedTo != actor.id && actor.role != "admin" then
      { status := 403, body := .message "Not authorized", db := db, emitted := [] }
    else
      saveAndPublish io db { task with status := some "completed" }


/-! ## The handlers on the path segment `req.params.id` -/

/-- What the `catch` block answers when `Task.findById(req.params.id)` rejects its argument
with a `CastError`. -/
def castRejected (db : Db) : Result :=
  { status := 500, body := .errorMessage .cast, db := db, emitted := [] }

/-- The handler `updateTask` as the router calls it, on the raw path segment. -/
def updateTaskRequest (io : Option SocketServer) (actor : Actor) (param : String)
    (body : Body) (db : Db) : Result :=
  match castObjectId param with
  | none => castRejected db
  | some id => updateTask io actor id body db

/-- The handler `deleteTask` as the router calls it, on the raw path segment. -/
def deleteTaskRequest (io : Option SocketServer) (actor : Actor) (param : String)
    (db : Db) : Result :=
  match castObjectId param with
  | none => castRejected db
  | some id => deleteTask io actor id db

/-- The handler `markTaskComplete` as the router calls it, on the raw path segment. -/
def markTaskCompleteRequest (io : Option SocketServer) (actor : Actor) (param : String)
    (body : Body) (db : Db) : Result :=
  match castObjectId param with
  | none => castRejected db
  | some id => markTaskComplete io actor id body db

/-! ## Analytics: `getTaskAnalytics` -/

/-- A plain JavaScript object used as a map, as the list of its own properties in insertion
order. `upsert key fresh f` is `if (!(key in obj)) obj[key] = fresh; obj[key] = f(obj[key])`.
The keys that occur in the controller (status values, priority values, year-month strings)
are neither array indices nor names inherited from `Object.prototype` for any value the
schema admits, so property order is insertion order. -/
def upsert {κ β : Type} [DecidableEq κ] (key : κ) (fresh : β) (f : β → β) :
    List (κ × β) → List (κ × β)
  | [] => [(key, f fresh)]
  | (k, v) :: rest =>
    if k = key then (k, f v) :: rest else (k, v) :: upsert key fresh f rest

/-- The expression `value || fallback` on an optional string: `undefined`, `null` and the
empty string are falsy. -/
def orElse (value : Option String) (fallback : String) : String :=
  match value with
  | some s => if s = "" then fallback else s
  | none => fallback

/-- An entry `{ _id: key, count: value }` of `statusBreakdown` or `priorityBreakdown`. -/
structure Breakdown where
  _id : String
  count : Nat
deriving DecidableEq, Repr

/-- An entry `{ count, completed, year, month }` of `monthlyTrends`. -/
structure MonthlyTrend where
  count : Nat
  completed : Nat
  year : Int
  month : Nat
deriving DecidableEq, Repr

/-- The `data` object of the analytics answer. -/
structure AnalyticsData where
  totalTasks : Nat
  completedTasks : Nat
  pendingTasks : Nat
  statusBreakdown : List Breakdown
  priorityBreakdown : List Breakdown
  monthlyTrends : List MonthlyTrend
deriving DecidableEq, Repr

/-- The answer of `getTaskAnalytics`: `res.json({ success, data })`. -/
structure AnalyticsResult where
  status : Nat
  success : Bool
  data : AnalyticsData
deriving DecidableEq, Repr

/-- The first `tasks.forEach`: `statusMap` and `priorityMap`, where
`map[k] = (map[k] || 0) + 1` adds one to the entry of `k`, creating it at zero. -/
def countMaps (tasks : List Task) : List (String × Nat) × List (String × Nat) :=
  tasks.foldl
    (fun maps task =>
      (upsert (orElse task.status "todo") 0 (fun n => n + 1) maps.1,
       upsert (orElse task.priority "normal") 0 (fun n => n + 1) maps.2))
    ([], [])

/-- The loop `for (const [key, value] of Object.entries(map)) out.push({ _id: key, count:
value })`. -/
def toBreakdown (map : List (String × Nat)) : List Breakdown :=
  map.map (fun entry => { _id := entry.1, count := entry.2 })

/-- The key of a due date in `monthlyTrendsMap`: the pair of `d.getFullYear()` and
`d.getMonth() + 1`, which the key string (year, hyphen, month) determines and is
determined by. -/
def monthKey (d : Date) : Int × Nat := (d.year, d.month.val + 1)

/-- The second `tasks.forEach`: `monthlyTrendsMap`. A task without `dueDate` is skipped. -/
def monthlyTrendsMap (tasks : List Task) : List ((Int × Nat) × MonthlyTrend) :=
  tasks.foldl
    (fun map task =>
      match task.dueDate with
      | none => map
      | some d =>
        upsert (monthKey d)
          { count := 0, completed := 0, year := d.year, month := d.month.val + 1 }
          (fun e =>
            { e with
              count := e.count + 1
              completed := if task.status = some "completed" then e.completed + 1
                else e.completed })
          map)
    []

/-- The comparator handed to `sort`. -/
def compareTrends (a b : MonthlyTrend) : Int :=
  if a.year ≠ b.year then a.year - b.year else (a.month : Int) - (b.month : Int)

/-- The comparator does not put `b` before `a`. -/
def trendsOrdered (a b : MonthlyTrend) : Prop := compareTrends a b ≤ 0

instance trendsOrderedDecidable : DecidableRel trendsOrdered :=
  fun a b => inferInstanceAs (Decidable (compareTrends a b ≤ 0))

/-- The aggregation of `getTaskAnalytics` over the tasks it fetched.
`Array.prototype.sort` is stable and, for a consistent comparator, yields the stably sorted
permutation whatever the algorithm; insertion sort computes it. -/
def analytics (tasks : List Task) : AnalyticsData :=
  { totalTasks := tasks.length
    completedTasks := (tasks.filter (fun t => t.status == some "completed")).length
    pendingTasks := (tasks.filter (fun t => t.status != some "completed")).length
    statusBreakdown := toBreakdown (countMaps tasks).1
    priorityBreakdown := toBreakdown (countMaps tasks).2
    monthlyTrends := ((monthlyTrendsMap tasks).map Prod.snd).insertionSort trendsOrdered }

/-- The documents `Task.find(matchQuery)` fetches for `getTaskAnalytics`. -/
def matchedTasks (actor : Actor) (db : Db) : List Task :=
  if actor.role != "admin" then db.tasks.filter (createdByOrAssignedTo actor.id)
  else db.tasks

/-- The handler `getTaskAnalytics`. -/
def getTaskAnalytics (actor : Actor) (db : Db) : AnalyticsResult :=
  { status := 200, success := true, data := analytics (matchedTasks actor db) }

/-! ## The Analytics page: `getMonthlyTrendsData` -/

/-- A JSON value as the Analytics page reads it. -/
inductive Json where
  | number (n : Int)
  | object (fields : List (String × Json))

/-- The serialisation `res.json` gives an entry of `monthlyTrends`. -/
def MonthlyTrend.toJson (e : MonthlyTrend) : Json :=
  .object [("count", .number e.count), ("completed", .number e.completed),
           ("year", .number e.year), ("month", .number e.month)]

/-- A property read `value.key`; `none` is `undefined`. -/
def Json.get (value : Json) (key : String) : Option Json :=
  match value with
  | .number _ => none
  | .object fields => fields.lookup key

/-- Truthiness of what a property read returns. -/
def Json.truthy : Option Json → Bool
  | none => false
  | some (.number n) => n != 0
  | some (.object _) => true

/-- The predicate `item => item._id && item._id.year && item._id.month`. -/
def validTrend (item : Json) : Bool :=
  Json.truthy (item.get "_id") &&
    Json.truthy ((item.get "_id").bind (fun id => id.get "year")) &&
    Json.truthy ((item.get "_id").bind (fun id => id.get "month"))

/-- The list `validTrends` of `getMonthlyTrendsData` for the `monthlyTrends` received. -/
def validTrends (trends : List MonthlyTrend) : List Json :=
  (trends.map MonthlyTrend.toJson).filter validTrend

/-! ## The Tasks page: socket handlers of `Tasks.jsx` -/

/-- A value that travels as the payload of a socket event or sits in the `tasks` state of
the Tasks page: a listed (populated) task, a task document as the controller emits it, or
a bare id. -/
inductive Doc where
  | listed (task : PopulatedTask)
  | task (task : Task)
  | id (id : ObjectId)
deriving DecidableEq, Repr

/-- The property read `doc._id`; `none` is `undefined` (a bare id has no such property). -/
def Doc._id : Doc → Option ObjectId
  | .listed t => some t._id
  | .task t => some t._id
  | .id _ => none

/-- The comparison `task._id === payload` of the `taskDeleted` handler: strict equality of
the `_id` of a cached entry with the payload itself, which holds only for a bare id. -/
def Doc.idIs (entry payload : Doc) : Bool :=
  match payload with
  | .id i => entry._id == some i
  | _ => false

/-- The handler `(newTask) => setTasks((prev) => [newTask, ...prev])`. -/
def onTaskCreated (newTask : Doc) (prev : List Doc) : List Doc :=
  newTask :: prev

/-- The handler `(updatedTask) => setTasks((prev) => prev.map((task) => (task._id ===
updatedTask._id ? updatedTask : task)))`. -/
def onTaskUpdated (updatedTask : Doc) (prev : List Doc) : List Doc :=
  prev.map (fun task => if task._id == updatedTask._id then updatedTask else task)

/-- The handler `(deletedTaskId) => setTasks((prev) => prev.filter((task) => task._id !==
deletedTaskId))`. -/
def onTaskDeleted (deletedTaskId : Doc) (prev : List Doc) : List Doc :=
  prev.filter (fun task => !(task.idIs deletedTaskId))

/-- The handler registered for `taskCompleted`, the same function as for `taskUpdated`. -/
def onTaskCompleted (completedTask : Doc) (prev : List Doc) : List Doc :=
  prev.map (fun task => if task._id == completedTask._id then completedTask else task)

/-- The effect on the `tasks` state of an event arriving under `name`: the `socket.on`
registrations of the `useEffect`; an event under any other name has no listener. -/
def tasksPageOn (name : String) (payload : Doc) (prev : List Doc) : List Doc :=
  if name == "taskCreated" then onTaskCreated payload prev
  else if name == "taskUpdated" then onTaskUpdated payload prev
  else if name == "taskDeleted" then onTaskDeleted payload prev
  else if name == "taskCompleted" then onTaskCompleted payload prev
  else prev

/-- The event name the controller passes to `io.emit`. -/
def Event.name : Event → String
  | .taskAdded _ => "taskAdded"
  | .taskUpdated _ => "taskUpdated"
  | .taskDeleted _ => "taskDeleted"

/-- The payload the controller passes to `io.emit`. -/
def Event.payload : Event → Doc
  | .taskAdded t => .task t
  | .taskUpdated t => .task t
  | .taskDeleted i => .id i

/-- A controller event as it reaches the Tasks page. -/
def deliver (e : Event) (prev : List Doc) : List Doc :=
  tasksPageOn e.name e.payload prev

/-! ## Requests and answers as the clients see them -/

/-- The query string of a list request, as `fetchTasks(filters)` builds it. -/
structure Query where
  status : Option String
  priority : Option String
  search : Option String
  assignedTo : Option String
  sortBy : Option String
  sortOrder : Option String
deriving DecidableEq, Repr

/-- The handler `getTasks` as a function of the whole request: it reads `req.user` and
nothing of `req.query`. -/
def getTasksRequest (_query : Query) (user : Actor) (db : Db) : Result :=
  getTasks user db

/-- Whether the JSON body of an answer has a `message` property. -/
def ResBody.hasMessage : ResBody → Bool
  | .message _ => true
  | .errorMessage _ => true
  | .taskList _ _ _ => false
  | .taskData _ _ => false
  | .confirmation _ _ => true

/-- The task an answer carries under `data`, if any. -/
def ResBody.task? : ResBody → Option Task
  | .taskData _ t => some t
  | _ => none

/-- A run of `updateTask` requests on one id, each on the database the previous one left. -/
def updateSequence (io : Option SocketServer) (id : ObjectId) :
    List (Actor × Body) → Db → List Result
  | [], _ => []
  | (actor, body) :: rest, db =>
    updateTask io actor id body db ::
      updateSequence io id rest (updateTask io actor id body db).db

/-- The events handed to the socket server over a run, in the order they were emitted. -/
def eventLog (results : List Result) : List Event :=
  (results.map (fun r => r.emitted)).flatten

/-! ## Derived notions and sample data -/

/-- The sum of a measure over the entries a map stores under one key. -/
def total {κ β : Type} [DecidableEq κ] (g : β → Nat) (m : List (κ × β)) (k : κ) : Nat :=
  ((m.filter (fun e => decide (e.1 = k))).map (fun e => g e.2)).sum

/-- The sum of a measure over all entries of a map. -/
def grandTotal {κ β : Type} (g : β → Nat) (m : List (κ × β)) : Nat :=
  (m.map (fun e => g e.2)).sum

/-- The task has a `dueDate` that falls in the given year and month (1 to 12). -/
def dueIn (year : Int) (month : Nat) (t : Task) : Bool :=
  match t.dueDate with
  | some d => d.year == year && d.month.val + 1 == month
  | none => false



/-- The change-set narrowed to the four paths of `allowedFields`. -/
def Body.narrowed (body : Body) : Body :=
  { Body.empty with
    title := body.title, description := body.description, status := body.status,
    priority := body.priority,
    nulls := body.nulls.filter
      (fun path => path == .title || path == .description || path == .status ||
        path == .priority) }

/-- A stored task used in the worked examples. -/
def sampleTask : Task :=
  { _id := 1, title := "Write report", description := none, assignedTo := 10, createdBy := 11,
    priority := some "medium", status := some "todo", dueDate := some ⟨2024, 2, 1⟩,
    completedAt := none, tags := ["q1"] }

/-- A database holding `sampleTask` only. -/
def sampleDb : Db :=
  { tasks := [sampleTask], users := [⟨10, "Ann", "ann@example.org", "user", true⟩] }

/-- A valid create request that tries to name another creator. -/
def sampleCreate : Body :=
  { Body.empty with
    title := some "Plan sprint", dueDate := some ⟨2024, 5, 0⟩, assignedTo := some 10,
    createdBy := some 99 }

/-- A completed task due in December 2023. -/
def sampleDone : Task :=
  { sampleTask with _id := 2, status := some "completed", dueDate := some ⟨2023, 11, 5⟩ }

/-- A stored document without status, priority and due date. -/
def sampleBare : Task :=
  { sampleTask with _id := 3, status := none, priority := none, dueDate := none }

/-- A completed task of high priority due in March 2024, the month of `sampleTask`. -/
def sampleLate : Task :=
  { sampleTask with
    _id := 4, status := some "completed", priority := some "high",
    dueDate := some ⟨2024, 2, 9⟩ }

/-- The step of the second `tasks.forEach` of `getTaskAnalytics`. -/
def trendStep (map : List ((Int × Nat) × MonthlyTrend)) (task : Task) :
    List ((Int × Nat) × MonthlyTrend) :=
  match task.dueDate with
  | none => map
  | some d =>
    upsert (monthKey d)
      { count := 0, completed := 0, year := d.year, month := d.month.val + 1 }
      (fun e =>
        { e with
          count := e.count + 1
          completed := if task.status = some "completed" then e.completed + 1
            else e.completed })
      map

/-- The databases the handlers can leave behind, starting from an empty `tasks`
collection; every call counts, whatever it answers. (A call whose path segment fails the
cast leaves the database as it was, so it adds no state.) -/
inductive Reachable : Db → Prop where
  | init (users : List User) : Reachable { tasks := [], users := users }
  | afterCreate {db : Db} (io : Option SocketServer) (newId : ObjectId) (actor : Actor)
      (body : Body) : Reachable db → Reachable (createTask io newId actor body db).db
  | afterUpdate {db : Db} (io : Option SocketServer) (actor : Actor) (id : ObjectId)
      (body : Body) : Reachable db → Reachable (updateTask io actor id body db).db
  | afterDelete {db : Db} (io : Option SocketServer) (actor : Actor) (id : ObjectId) :
      Reachable db → Reachable (deleteTask io actor id db).db
  | afterComplete {db : Db} (io : Option SocketServer) (actor : Actor) (id : ObjectId)
      (body : Body) : Reachable db → Reachable (markTaskComplete io actor id body db).db

/-- The databases the handlers can leave behind, starting from an empty `tasks`
collection, when no request body carries `null` for `status` or for `priority`. -/
inductive ReachableWithoutNull : Db → Prop where
  | init (users : List User) : ReachableWithoutNull { tasks := [], users := users }
  | afterCreate {db : Db} (io : Option SocketServer) (newId : ObjectId) (actor : Actor)
      (body : Body) : body.isNull .priority = false → ReachableWithoutNull db →
      ReachableWithoutNull (createTask io newId actor body db).db
  | afterUpdate {db : Db} (io : Option SocketServer) (actor : Actor) (id : ObjectId)
      (body : Body) : body.isNull .status = false → body.isNull .priority = false →
      ReachableWithoutNull db → ReachableWithoutNull (updateTask io actor id body db).db
  | afterDelete {db : Db} (io : Option SocketServer) (actor : Actor) (id : ObjectId) :
      ReachableWithoutNull db → ReachableWithoutNull (deleteTask io actor id db).db
  | afterComplete {db : Db} (io : Option SocketServer) (actor : Actor) (id : ObjectId)
      (body : Body) : ReachableWithoutNull db →
      ReachableWithoutNull (markTaskComplete io actor id body db).db

/-- The status and the priority of the task are present and belong to their enums. -/
def Task.Enumerated (t : Task) : Prop :=
  (∃ s ∈ statusEnum, t.status = some s) ∧ (∃ p ∈ priorityEnum, t.priority = some p)

/-- The status and the priority of the task, where present, belong to their enums. -/
def Task.EnumeratedIfPresent (t : Task) : Prop :=
  (∀ s, t.status = some s → s ∈ statusEnum) ∧ (∀ p, t.priority = some p → p ∈ priorityEnum)

/-- The body `{ status: null }`. -/
def nullStatus : Body := { Body.empty with nulls := [.status] }

/-- The body `{ priority: null }`. -/
def nullPriority : Body := { Body.empty with nulls := [.priority] }

/-- Every stored task satisfies its schema, as every task written by `create()` or
`save()` does. -/
def Db.Valid (db : Db) : Prop := ∀ t ∈ db.tasks, validate t = true

/-! ## Lemmas on the model operations -/

theorem findById_id {tasks : List Task} {id : ObjectId} {t : Task}
    (h : findById tasks id = some t) : t._id = id := by
  have := List.find?_some h
  simpa using this

theorem findById_mem {tasks : List Task} {id : ObjectId} {t : Task}
    (h : findById tasks id = some t) : t ∈ tasks :=
  List.mem_of_find?_eq_some h

theorem findById_replaceDoc (task : Task) (tasks : List Task)
    (h : (findById tasks task._id).isSome) :
    findById (replaceDoc task tasks) task._id = some task := by
  induction tasks with
  | nil => simp [findById] at h
  | cons t ts ih =>
    unfold replaceDoc
    by_cases ht : t._id = task._id
    · simp [ht, findById]
    · have h2 : (findById ts task._id).isSome := by
        simpa [findById, List.find?_cons, ht] using h
      have hb : (t._id == task._id) = false := by simpa using ht
      simp only [hb, Bool.false_eq_true, if_false]
      simp only [findById, List.find?_cons, hb] at ih ⊢
      exact ih h2

theorem assignAllowed_eq (body : Body) (task : Task) :
    assignAllowed body task =
      { task with
        title := match body.title with | some v => jsTrim v | none => task.title
        description := match body.description with
          | some v => some (jsTrim v)
          | none => if body.isNull .description then none else task.description
        status := match body.status with
          | some v => some v
          | none => if body.isNull .status then none else task.status
        priority := match body.priority with
          | some v => some v
          | none => if body.isNull .priority then none else task.priority } := by
  simp only [assignAllowed, allowedFields, List.foldl_cons, List.foldl_nil, setAllowed]
  simp only [beq_self_eq_true, if_true,
    show ("description" == "title") = false by decide,
    show ("status" == "title") = false by decide,
    show ("status" == "description") = false by decide,
    show ("priority" == "title") = false by decide,
    show ("priority" == "description") = false by decide,
    show ("priority" == "status") = false by decide, Bool.false_eq_true, if_false]
  generalize body.isNull .description = dNull
  generalize body.isNull .status = sNull
  generalize body.isNull .priority = pNull
  cases body.title <;> cases body.description <;> cases body.status <;> cases body.priority <;>
    cases dNull <;> cases sNull <;> cases pNull <;> rfl

theorem saveAndPublish_status_ok {io : Option SocketServer} {db : Db} {task : Task}
    (h : (saveAndPublish io db task).status = 200) :
    validate task = true ∧
      (saveAndPublish io db task).db = { db with tasks := replaceDoc task db.tasks } ∧
      (saveAndPublish io db task).body = .taskData true task := by
  unfold saveAndPublish save emit at h ⊢
  by_cases hv : validate task = true
  · rcases io with _ | ⟨_ | _⟩ <;> simp_all
  · simp_all

theorem saveAndPublish_ok_of_valid {io : Option SocketServer} {db : Db} {task : Task}
    (hv : validate task = true) (hio : ∀ s, io = some s → s.raises = false) :
    (saveAndPublish io db task).status = 200 := by
  unfold saveAndPublish save emit
  rcases io with _ | s
  · simp [hv]
  · have := hio s rfl
    simp_all

theorem saveRejected_status (db : Db) : (saveRejected db).status = 500 := rfl

theorem updateTask_assignee_cases (io : Option SocketServer) (actor : Actor) (id : ObjectId)
    (body : Body) (db : Db) (task : Task) (hfind : findById db.tasks id = some task)
    (hassignee : task.assignedTo = actor.id) :
    (nullsRequired [.title] body = true ∧ updateTask io actor id body db = saveRejected db) ∨
      (nullsRequired [.title] body = false ∧
        updateTask io actor id body db = saveAndPublish io db (assignAllowed body task)) := by
  have hb : (task.assignedTo == actor.id) = true := by simpa using hassignee
  by_cases hn : nullsRequired [.title] body = true
  · left
    exact ⟨hn, by simp only [updateTask, hfind, hb, hn, if_true]⟩
  · right
    have hn2 : nullsRequired [.title] body = false := by simpa using hn
    exact ⟨hn2, by simp only [updateTask, hfind, hb, hn2, if_true, if_false, Bool.false_eq_true]⟩

theorem updateTask_assignee_eq (io : Option SocketServer) (actor : Actor) (id : ObjectId)
    (body : Body) (db : Db) (task : Task) (hfind : findById db.tasks id = some task)
    (hassignee : task.assignedTo = actor.id)
    (hok : (updateTask io actor id body db).status = 200) :
    updateTask io actor id body db = saveAndPublish io db (assignAllowed body task) := by
  rcases updateTask_assignee_cases io actor id body db task hfind hassignee with
    ⟨_, h⟩ | ⟨_, h⟩
  · rw [h, saveRejected_status] at hok
    exact absurd hok (by decide)
  · exact h

theorem narrowed_isNull (body : Body) :
    body.narrowed.isNull .title = body.isNull .title ∧
      body.narrowed.isNull .description = body.isNull .description ∧
      body.narrowed.isNull .status = body.isNull .status ∧
      body.narrowed.isNull .priority = body.isNull .priority := by
  have hc : ∀ path : Path,
      (path == .title || path == .description || path == .status || path == .priority) = true →
      (body.nulls.filter (fun path => path == .title || path == .description ||
        path == .status || path == .priority)).contains path = body.nulls.contains path := by
    intro path hpath
    rw [Bool.eq_iff_iff]
    simp only [List.contains_eq_any_beq, List.any_eq_true, List.mem_filter]
    constructor
    · rintro ⟨x, ⟨hx, _⟩, hxp⟩
      exact ⟨x, hx, hxp⟩
    · rintro ⟨x, hx, hxp⟩
      have hxe : x = path := by have := hxp; simp at this; exact this.symm
      exact ⟨x, ⟨hx, by rw [hxe]; exact hpath⟩, hxp⟩
  refine ⟨?_, ?_, ?_, ?_⟩ <;>
    simp only [Body.isNull, Body.narrowed, Body.hasValue, Body.empty] <;>
    rw [hc _ (by decide)]

theorem updateTask_narrowed (io : Option SocketServer) (actor : Actor) (id : ObjectId)
    (body : Body) (db : Db) (task : Task) (hfind : findById db.tasks id = some task)
    (hassignee : task.assignedTo = actor.id) :
    updateTask io actor id body db = updateTask io actor id body.narrowed db := by
  obtain ⟨h1, h2, h3, h4⟩ := narrowed_isNull body
  have hnulls : nullsRequired [.title] body.narrowed = nullsRequired [.title] body := by
    simp only [nullsRequired, List.any_cons, List.any_nil, h1]
  have hassign : assignAllowed body.narrowed task = assignAllowed body task := by
    rw [assignAllowed_eq, assignAllowed_eq, h2, h3, h4]
    rfl
  rcases updateTask_assignee_cases io actor id body db task hfind hassignee with
    ⟨hn, h⟩ | ⟨hn, h⟩ <;>
  rcases updateTask_assignee_cases io actor id body.narrowed db task hfind hassignee with
    ⟨hm, k⟩ | ⟨hm, k⟩
  · rw [h, k]
  · rw [hnulls, hn] at hm; exact absurd hm (by decide)
  · rw [hnulls, hn] at hm; exact absurd hm (by decide)
  · rw [h, k, hassign]

theorem findById_saved {db : Db} {id : ObjectId} {task saved : Task}
    (hfind : findById db.tasks id = some task) (hid : saved._id = task._id) :
    findById (replaceDoc saved db.tasks) id = some saved := by
  have h1 := findById_id hfind
  have := findById_replaceDoc saved db.tasks (by simp [hid, h1, hfind])
  simpa [hid, h1] using this

/-- C1 (amended). When the actor is the assignee of the stored task (whatever the role), a
successful `updateTask` persists the task with `status` and `priority` set to the value of
the change-set and `title` and `description` set to the trimmed value of the change-set,
where the change-set carries one (a `null` for `description`, `status` or `priority` empties
the path), and every other path (`_id`, `assignedTo`, `createdBy`, `dueDate`,
`completedAt`, `tags`) as it was; the answer carries that task; the other paths of the
change-set are dropped without an error: the outcome is that of the change-set narrowed to
the four allowed paths. -/
theorem updateTask_assignee_frame (io : Option SocketServer) (actor : Actor) (id : ObjectId)
    (body : Body) (db : Db) (task : Task)
    (hfind : findById db.tasks id = some task)
    (hassignee : task.assignedTo = actor.id)
    (hok : (updateTask io actor id body db).status = 200) :
    findById (updateTask io actor id body db).db.tasks id =
        some { task with
          title := match body.title with | some v => jsTrim v | none => task.title
          description := match body.description with
            | some v => some (jsTrim v)
            | none => if body.isNull .description then none else task.description
          status := match body.status with
            | some v => some v
            | none => if body.isNull .status then none else task.status
          priority := match body.priority with
            | some v => some v
            | none => if body.isNull .priority then none else task.priority } ∧
      (updateTask io actor id body db).body =
        .taskData true { task with
          title := match body.title with | some v => jsTrim v | none => task.title
          description := match body.description with
            | some v => some (jsTrim v)
            | none => if body.isNull .description then none else task.description
          status := match body.status with
            | some v => some v
            | none => if body.isNull .status then none else task.status
          priority := match body.priority with
            | some v => some v
            | none => if body.isNull .priority then none else task.priority } ∧
      updateTask io actor id body db = updateTask io actor id body.narrowed db := by
  refine ⟨?_, ?_, updateTask_narrowed io actor id body db task hfind hassignee⟩
  all_goals
    have heq := updateTask_assignee_eq io actor id body db task hfind hassignee hok
    rw [heq] at hok ⊢
    obtain ⟨_, hdb, hbody⟩ := saveAndPublish_status_ok hok
    rw [assignAllowed_eq] at hdb hbody
  · rw [assignAllowed_eq, hdb]
    exact findById_saved hfind rfl
  · rw [assignAllowed_eq]; exact hbody

/-- Witness of C1 (amended): the assignee renames the sample task and tries to reassign it
and to move its due date. -/
theorem updateTask_assignee_frame_witness :
    findById (updateTask (some ⟨false⟩) ⟨10, "user"⟩ 1
        { Body.empty with title := some "T", assignedTo := some 12,
                          dueDate := some ⟨2030, 0, 0⟩ } sampleDb).db.tasks 1 =
      some { sampleTask with title := "T" } :=
  (updateTask_assignee_frame (some ⟨false⟩) ⟨10, "user"⟩ 1
    { Body.empty with title := some "T", assignedTo := some 12, dueDate := some ⟨2030, 0, 0⟩ }
    sampleDb sampleTask (by decide) (by decide) (by decide)).1

/-- Counterexample to C1 as stated: the assignee submits the title `" T "`; the update
succeeds and the persisted title is `"T"`, not the value of the change-set. -/
theorem updateTask_assignee_title_trimmed :
    (updateTask (some ⟨false⟩) ⟨10, "user"⟩ 1 { Body.empty with title := some " T " }
        sampleDb).status = 200 ∧
      (findById (updateTask (some ⟨false⟩) ⟨10, "user"⟩ 1
          { Body.empty with title := some " T " } sampleDb).db.tasks 1).map (fun t => t.title) =
        some "T" ∧
      (findById (updateTask (some ⟨false⟩) ⟨10, "user"⟩ 1
          { Body.empty with title := some " T " } sampleDb).db.tasks 1).map (fun t => t.title) ≠
        some " T " := by
  decide

theorem updateTask_admin_cases (io : Option SocketServer) (actor : Actor) (id : ObjectId)
    (body : Body) (db : Db) (task : Task) (hfind : findById db.tasks id = some task)
    (hother : task.assignedTo ≠ actor.id) (hadmin : actor.role = "admin") :
    (nullsRequired [.title, .assignedTo, .createdBy] body = true ∧
        updateTask io actor id body db = saveRejected db) ∨
      (nullsRequired [.title, .assignedTo, .createdBy] body = false ∧
        updateTask io actor id body db = saveAndPublish io db (objectAssign body task)) := by
  have hb : (task.assignedTo == actor.id) = false := by simpa using hother
  have hr : (actor.role == "admin") = true := by simpa using hadmin
  by_cases hn : nullsRequired [.title, .assignedTo, .createdBy] body = true
  · left
    exact ⟨hn, by simp only [updateTask, hfind, hb, hr, hn, if_true, if_false,
      Bool.false_eq_true]⟩
  · right
    have hn2 : nullsRequired [.title, .assignedTo, .createdBy] body = false := by simpa using hn
    exact ⟨hn2, by simp only [updateTask, hfind, hb, hr, hn2, if_true, if_false,
      Bool.false_eq_true]⟩

theorem updateTask_admin_eq (io : Option SocketServer) (actor : Actor) (id : ObjectId)
    (body : Body) (db : Db) (task : Task) (hfind : findById db.tasks id = some task)
    (hother : task.assignedTo ≠ actor.id) (hadmin : actor.role = "admin")
    (hok : (updateTask io actor id body db).status = 200) :
    updateTask io actor id body db = saveAndPublish io db (objectAssign body task) := by
  rcases updateTask_admin_cases io actor id body db task hfind hother hadmin with
    ⟨_, h⟩ | ⟨_, h⟩
  · rw [h, saveRejected_status] at hok
    exact absurd hok (by decide)
  · exact h

/-- C2 (amended). When the actor is an admin and is not the assignee of the stored task, a
successful `updateTask` persists, for every path the change-set names, the submitted value
(`assignedTo`, `createdBy`, `priority`, `status`, `dueDate`, `completedAt`, `tags`) or its
trimmed form (`title`, `description`), and answers with the persisted task; a `null` for
`description`, `priority`, `status` or `completedAt` empties the path. -/
theorem updateTask_admin_applies (io : Option SocketServer) (actor : Actor) (id : ObjectId)
    (body : Body) (db : Db) (task : Task)
    (hfind : findById db.tasks id = some task)
    (hadmin : actor.role = "admin")
    (hother : task.assignedTo ≠ actor.id)
    (hok : (updateTask io actor id body db).status = 200) :
    ∃ saved : Task,
      findById (updateTask io actor id body db).db.tasks id = some saved ∧
      (updateTask io actor id body db).body = .taskData true saved ∧
      (∀ v, body.title = some v → saved.title = jsTrim v) ∧
      (∀ v, body.description = some v → saved.description = some (jsTrim v)) ∧
      (∀ v, body.assignedTo = some v → saved.assignedTo = v) ∧
      (∀ v, body.createdBy = some v → saved.createdBy = v) ∧
      (∀ v, body.priority = some v → saved.priority = some v) ∧
      (∀ v, body.status = some v → saved.status = some v) ∧
      (∀ v, body.dueDate = some v → saved.dueDate = some v) ∧
      (∀ v, body.completedAt = some v → saved.completedAt = some v) ∧
      (∀ v, body.tags = some v → saved.tags = v) ∧
      (body.isNull .description = true → saved.description = none) ∧
      (body.isNull .priority = true → saved.priority = none) ∧
      (body.isNull .status = true → saved.status = none) ∧
      (body.isNull .completedAt = true → saved.completedAt = none) := by
  have heq := updateTask_admin_eq io actor id body db task hfind hother hadmin hok
  rw [heq] at hok ⊢
  obtain ⟨_, hdb, hbody⟩ := saveAndPublish_status_ok hok
  refine ⟨objectAssign body task, ?_, hbody, ?_⟩
  · rw [hdb]
    exact findById_saved hfind rfl
  · simp only [objectAssign]
    refine ⟨?_, ?_, ?_, ?_, ?_, ?_, ?_, ?_, ?_, ?_, ?_, ?_, ?_⟩
    any_goals (intro v hv; simp [hv])
    all_goals
      intro hnull
      have hvalue := hnull
      simp only [Body.isNull, Body.hasValue, Bool.and_eq_true, Bool.not_eq_true',
        Option.not_isSome, Option.isNone_iff_eq_none] at hvalue
      simp [hvalue.1, hnull]

/-- Witness of C2 (amended): an admin who is not the assignee reassigns the sample task,
raises its priority and moves its due date. -/
theorem updateTask_admin_applies_witness :
    ∃ saved : Task,
      findById (updateTask (some ⟨false⟩) ⟨20, "admin"⟩ 1
          { Body.empty with assignedTo := some 12, priority := some "urgent",
                            dueDate := some ⟨2030, 0, 0⟩ } sampleDb).db.tasks 1 = some saved ∧
      saved.assignedTo = 12 ∧ saved.priority = some "urgent" ∧
      saved.dueDate = some ⟨2030, 0, 0⟩ := by
  obtain ⟨saved, h1, _, _, _, h5, _, h7, _, h9, _, _⟩ :=
    updateTask_admin_applies (some ⟨false⟩) ⟨20, "admin"⟩ 1
      { Body.empty with assignedTo := some 12, priority := some "urgent",
                        dueDate := some ⟨2030, 0, 0⟩ }
      sampleDb sampleTask (by decide) (by decide) (by decide) (by decide)
  exact ⟨saved, h1, h5 12 rfl, h7 "urgent" rfl, h9 ⟨2030, 0, 0⟩ rfl⟩

/-- Counterexample to C2 as stated. An admin who is also the assignee of the sample task
submits a new assignee and a new due date: the update succeeds and both paths keep their
old value. An admin who is not the assignee submits a status outside the enum: the call
answers 500 and the stored task is unchanged. The same admin submits the title `" T "`: the
persisted title is `"T"`. -/
theorem updateTask_admin_not_verbatim :
    ((updateTask (some ⟨false⟩) ⟨10, "admin"⟩ 1
          { Body.empty with assignedTo := some 12, dueDate := some ⟨2030, 0, 0⟩ }
          sampleDb).status = 200 ∧
      findById (updateTask (some ⟨false⟩) ⟨10, "admin"⟩ 1
          { Body.empty with assignedTo := some 12, dueDate := some ⟨2030, 0, 0⟩ }
          sampleDb).db.tasks 1 = some sampleTask ∧
      sampleTask.assignedTo ≠ 12 ∧ sampleTask.dueDate ≠ some ⟨2030, 0, 0⟩) ∧
    ((updateTask (some ⟨false⟩) ⟨20, "admin"⟩ 1 { Body.empty with status := some "done" }
          sampleDb).status = 500 ∧
      findById (updateTask (some ⟨false⟩) ⟨20, "admin"⟩ 1
          { Body.empty with status := some "done" } sampleDb).db.tasks 1 = some sampleTask ∧
      sampleTask.status ≠ some "done") ∧
    ((updateTask (some ⟨false⟩) ⟨20, "admin"⟩ 1 { Body.empty with title := some " T " }
          sampleDb).status = 200 ∧
      findById (updateTask (some ⟨false⟩) ⟨20, "admin"⟩ 1
          { Body.empty with title := some " T " } sampleDb).db.tasks 1 =
        some { sampleTask with title := "T" }) := by
  decide

theorem updateTask_forbidden_eq (io : Option SocketServer) (actor : Actor) (id : ObjectId)
    (body : Body) (db : Db) (task : Task) (hfind : findById db.tasks id = some task)
    (hother : task.assignedTo ≠ actor.id) (hrole : actor.role ≠ "admin") :
    updateTask io actor id body db =
      { status := 403, body := .message "Not authorized", db := db, emitted := [] } := by
  have hb : (task.assignedTo == actor.id) = false := by simpa using hother
  simp [updateTask, hfind, hb, hrole]

theorem updateTask_shape (actor : Actor) (id : ObjectId) (body : Body) (db : Db) :
    (∃ task saved, findById db.tasks id = some task ∧ saved._id = id ∧
        (saved = assignAllowed body task ∨ saved = objectAssign body task) ∧
        ∀ io, updateTask io actor id body db = saveAndPublish io db saved) ∨
      ((updateTask none actor id body db).status ≠ 200 ∧
        (updateTask none actor id body db).db = db ∧
        (updateTask none actor id body db).emitted = [] ∧
        ∀ io, updateTask io actor id body db = updateTask none actor id body db) := by
  rcases hfind : findById db.tasks id with _ | task
  · right
    simp [updateTask, hfind]
  · have hid := findById_id hfind
    by_cases ha : task.assignedTo = actor.id
    · by_cases hn : nullsRequired [.title] body = true
      · right
        have hb : (task.assignedTo == actor.id) = true := by simpa using ha
        simp [updateTask, hfind, hb, hn, saveRejected]
      · left
        have hn2 : nullsRequired [.title] body = false := by simpa using hn
        refine ⟨task, assignAllowed body task, rfl, by rw [assignAllowed_eq]; exact hid,
          Or.inl rfl, fun io => ?_⟩
        rcases updateTask_assignee_cases io actor id body db task hfind ha with
          ⟨h, _⟩ | ⟨_, h⟩
        · rw [hn2] at h; exact absurd h (by decide)
        · exact h
    · by_cases hadmin : actor.role = "admin"
      · by_cases hn : nullsRequired [.title, .assignedTo, .createdBy] body = true
        · right
          have hb : (task.assignedTo == actor.id) = false := by simpa using ha
          simp [updateTask, hfind, hb, hadmin, hn, saveRejected]
        · left
          have hn2 : nullsRequired [.title, .assignedTo, .createdBy] body = false := by
            simpa using hn
          refine ⟨task, objectAssign body task, rfl, hid, Or.inr rfl, fun io => ?_⟩
          rcases updateTask_admin_cases io actor id body db task hfind ha hadmin with
            ⟨h, _⟩ | ⟨_, h⟩
          · rw [hn2] at h; exact absurd h (by decide)
          · exact h
      · right
        simp [updateTask_forbidden_eq _ actor id body db task hfind ha hadmin]

/-- C3. When the actor is neither the assignee of the stored task nor an admin (the
creator of the task included), `updateTask` answers 403 with `Not authorized`, the
database is the one before the call and no event is emitted. -/
theorem updateTask_forbidden (io : Option SocketServer) (actor : Actor) (id : ObjectId)
    (body : Body) (db : Db) (task : Task)
    (hfind : findById db.tasks id = some task)
    (hother : task.assignedTo ≠ actor.id)
    (hrole : actor.role ≠ "admin") :
    (updateTask io actor id body db).status = 403 ∧
      (updateTask io actor id body db).body = .message "Not authorized" ∧
      (updateTask io actor id body db).db = db ∧
      (updateTask io actor id body db).emitted = [] := by
  rw [updateTask_forbidden_eq io actor id body db task hfind hother hrole]
  exact ⟨rfl, rfl, rfl, rfl⟩

/-- Witness of C3: the creator of the sample task, who is not its assignee, is refused. -/
theorem updateTask_forbidden_witness :
    sampleTask.createdBy = 11 ∧
      (updateTask (some ⟨false⟩) ⟨11, "user"⟩ 1 { Body.empty with title := some "T" }
        sampleDb).status = 403 ∧
      (updateTask (some ⟨false⟩) ⟨11, "user"⟩ 1 { Body.empty with title := some "T" }
        sampleDb).body = .message "Not authorized" ∧
      (updateTask (some ⟨false⟩) ⟨11, "user"⟩ 1 { Body.empty with title := some "T" }
        sampleDb).db = sampleDb ∧
      (updateTask (some ⟨false⟩) ⟨11, "user"⟩ 1 { Body.empty with title := some "T" }
        sampleDb).emitted = [] :=
  ⟨rfl, updateTask_forbidden (some ⟨false⟩) ⟨11, "user"⟩ 1 { Body.empty with title := some "T" }
    sampleDb sampleTask (by decide) (by decide) (by decide)⟩

theorem emit_ok {io : Option SocketServer} (hio : ∀ s, io = some s → s.raises = false)
    (e : Event) : ∃ events, emit io e = .ok events := by
  rcases io with _ | s
  · exact ⟨[], rfl⟩
  · have := hio s rfl
    exact ⟨[e], by simp [emit, this]⟩

/-- C4. For a stored task, `deleteTask` answers 200 only when the actor is the creator of
the task or an admin, and it does answer 200 for such an actor (provided the `emit` of the
socket server, if one is registered, does not raise); for every other actor it answers 403,
the database is the one before the call (the task is still found) and no event is
emitted. -/
theorem deleteTask_authorization (io : Option SocketServer) (actor : Actor) (id : ObjectId)
    (db : Db) (task : Task)
    (hfind : findById db.tasks id = some task) :
    ((deleteTask io actor id db).status = 200 →
        task.createdBy = actor.id ∨ actor.role = "admin") ∧
      (task.createdBy = actor.id ∨ actor.role = "admin" →
        (deleteTask io actor id db).status ≠ 403 ∧
        ((∀ s, io = some s → s.raises = false) →
          (deleteTask io actor id db).status = 200 ∧
          (deleteTask io actor id db).body =
            .confirmation true "Task deleted successfully")) ∧
      (¬ (task.createdBy = actor.id ∨ actor.role = "admin") →
        (deleteTask io actor id db).status = 403 ∧
        (deleteTask io actor id db).body = .message "Not authorized to delete this task" ∧
        (deleteTask io actor id db).db = db ∧
        findById (deleteTask io actor id db).db.tasks id = some task ∧
        (deleteTask io actor id db).emitted = []) := by
  by_cases hauth : task.createdBy = actor.id ∨ actor.role = "admin"
  · have hg : (task.createdBy != actor.id && actor.role != "admin") = false := by
      rcases hauth with h | h <;> simp [h]
    refine ⟨fun _ => hauth, fun _ => ⟨?_, fun hio => ?_⟩, fun h => absurd hauth h⟩
    · simp only [deleteTask, hfind, hg, Bool.false_eq_true, if_false]
      rcases emit io (.taskDeleted task._id) with e | events <;> simp
    · obtain ⟨events, he⟩ := emit_ok hio (.taskDeleted task._id)
      simp [deleteTask, hfind, hg, he]
  · have hg : (task.createdBy != actor.id && actor.role != "admin") = true := by
      simp only [not_or] at hauth
      simp [hauth.1, hauth.2]
    simp [deleteTask, hfind, hg, hauth]

/-- Witness of C4: the assignee of the sample task, who did not create it, may not delete
it, and its creator may. -/
theorem deleteTask_authorization_witness :
    (deleteTask (some ⟨false⟩) ⟨10, "user"⟩ 1 sampleDb).status = 403 ∧
      (deleteTask (some ⟨false⟩) ⟨11, "user"⟩ 1 sampleDb).status = 200 :=
  ⟨((deleteTask_authorization (some ⟨false⟩) ⟨10, "user"⟩ 1 sampleDb sampleTask
      (by decide)).2.2 (by decide)).1,
   (((deleteTask_authorization (some ⟨false⟩) ⟨11, "user"⟩ 1 sampleDb sampleTask
      (by decide)).2.1 (by decide)).2 (by decide)).1⟩

theorem validate_completed {task : Task} (hvalid : validate task = true) :
    validate { task with status := some "completed" } = true := by
  simp only [validate, Bool.and_eq_true] at hvalid ⊢
  obtain ⟨⟨⟨h1, h2⟩, _⟩, h4⟩ := hvalid
  exact ⟨⟨⟨h1, h2⟩, by decide⟩, h4⟩

/-- C5. For a stored task, `markTaskComplete` answers 200 only when the actor is the
assignee of the task or an admin, and it does answer 200 for such an actor (provided the
stored task satisfies its schema and the `emit` of the socket server, if one is registered,
does not raise); for every other actor (the creator of the task included) it answers 403,
the database is the one before the call and no event is emitted. -/
theorem markTaskComplete_authorization (io : Option SocketServer) (actor : Actor)
    (id : ObjectId) (body : Body) (db : Db) (task : Task)
    (hfind : findById db.tasks id = some task) :
    ((markTaskComplete io actor id body db).status = 200 →
        task.assignedTo = actor.id ∨ actor.role = "admin") ∧
      (task.assignedTo = actor.id ∨ actor.role = "admin" →
        (markTaskComplete io actor id body db).status ≠ 403 ∧
        (validate task = true → (∀ s, io = some s → s.raises = false) →
          (markTaskComplete io actor id body db).status = 200)) ∧
      (¬ (task.assignedTo = actor.id ∨ actor.role = "admin") →
        (markTaskComplete io actor id body db).status = 403 ∧
        (markTaskComplete io actor id body db).body = .message "Not authorized" ∧
        (markTaskComplete io actor id body db).db = db ∧
        findById (markTaskComplete io actor id body db).db.tasks id = some task ∧
        (markTaskComplete io actor id body db).emitted = []) := by
  by_cases hauth : task.assignedTo = actor.id ∨ actor.role = "admin"
  · have hg : (task.assignedTo != actor.id && actor.role != "admin") = false := by
      rcases hauth with h | h <;> simp [h]
    refine ⟨fun _ => hauth, fun _ => ⟨?_, fun hvalid hio => ?_⟩, fun h => absurd hauth h⟩
    · simp only [markTaskComplete, hfind, hg, Bool.false_eq_true, if_false, saveAndPublish]
      rcases save db { task with status := some "completed" } with e | db1
      · simp
      · rcases emit io (.taskUpdated { task with status := some "completed" }) with e | events
          <;> simp
    · have h200 := @saveAndPublish_ok_of_valid io db _ (validate_completed hvalid) hio
      simp [markTaskComplete, hfind, hg, h200]
  · have hg : (task.assignedTo != actor.id && actor.role != "admin") = true := by
      simp only [not_or] at hauth
      simp [hauth.1, hauth.2]
    simp [markTaskComplete, hfind, hg, hauth]

/-- Witness of C5: the creator of the sample task, who is not its assignee, may not
complete it, and an admin may. -/
theorem markTaskComplete_authorization_witness :
    (markTaskComplete (some ⟨false⟩) ⟨11, "user"⟩ 1 Body.empty sampleDb).status = 403 ∧
      (markTaskComplete (some ⟨false⟩) ⟨20, "admin"⟩ 1 Body.empty sampleDb).status = 200 :=
  ⟨((markTaskComplete_authorization (some ⟨false⟩) ⟨11, "user"⟩ 1 Body.empty sampleDb
      sampleTask (by decide)).2.2 (by decide)).1,
   ((markTaskComplete_authorization (some ⟨false⟩) ⟨20, "admin"⟩ 1 Body.empty sampleDb
      sampleTask (by decide)).2.1 (by decide)).2 (by decide) (by decide)⟩

/-- C6. A successful `markTaskComplete` on a stored task persists that task with `status`
set to `completed` and every other path (`_id`, `title`, `description`, `priority`,
`assignedTo`, `createdBy`, `dueDate`, `completedAt`, `tags`) as it was, and answers with
it; the request body has no influence on the outcome. -/
theorem markTaskComplete_frame (io : Option SocketServer) (actor : Actor) (id : ObjectId)
    (body : Body) (db : Db) (task : Task)
    (hfind : findById db.tasks id = some task)
    (hok : (markTaskComplete io actor id body db).status = 200) :
    findById (markTaskComplete io actor id body db).db.tasks id =
        some { task with status := some "completed" } ∧
      (markTaskComplete io actor id body db).body =
        .taskData true { task with status := some "completed" } ∧
      ∀ other : Body,
        markTaskComplete io actor id other db = markTaskComplete io actor id body db := by
  refine ⟨?_, ?_, fun _ => rfl⟩
  all_goals
    by_cases hg : (task.assignedTo != actor.id && actor.role != "admin") = true
    · simp [markTaskComplete, hfind, hg] at hok
    · simp only [markTaskComplete, hfind, hg, if_false, Bool.false_eq_true] at hok ⊢
      obtain ⟨_, hdb, hbody⟩ := saveAndPublish_status_ok hok
      first
        | exact hbody
        | rw [hdb]; exact findById_saved hfind rfl

/-- Witness of C6: the assignee completes the sample task while submitting a body that
names other paths. -/
theorem markTaskComplete_frame_witness :
    findById (markTaskComplete (some ⟨false⟩) ⟨10, "user"⟩ 1
        { Body.empty with title := some "T", assignedTo := some 12 } sampleDb).db.tasks 1 =
      some { sampleTask with status := some "completed" } :=
  (markTaskComplete_frame (some ⟨false⟩) ⟨10, "user"⟩ 1
    { Body.empty with title := some "T", assignedTo := some 12 } sampleDb sampleTask
    (by decide) (by decide)).1

theorem handlers_absent (io : Option SocketServer) (actor : Actor) (id : ObjectId)
    (body : Body) (db : Db)
    (hnone : findById db.tasks id = none) :
    updateTask io actor id body db =
        { status := 404, body := .message "Task not found", db := db, emitted := [] } ∧
      deleteTask io actor id db =
        { status := 404, body := .message "Task not found", db := db, emitted := [] } ∧
      markTaskComplete io actor id body db =
        { status := 404, body := .message "Task not found", db := db, emitted := [] } := by
  simp [updateTask, deleteTask, markTaskComplete, hnone]

/-- C7 (amended). For a path segment `req.params.id` that resolves to no stored task,
whatever the actor and its role: when the segment is a well-formed object id, `updateTask`,
`deleteTask` and `markTaskComplete` each answer 404 with `Task not found`; when it is not,
the query rejects it and each of them answers 500 with the message of the cast error. In
both cases the answer is never 403, the database is left as it was and no event is
emitted. -/
theorem requests_not_found (io : Option SocketServer) (actor : Actor) (param : String)
    (body : Body) (db : Db)
    (hnone : ∀ id, castObjectId param = some id → findById db.tasks id = none) :
    ((castObjectId param).isSome = true →
        updateTaskRequest io actor param body db =
            { status := 404, body := .message "Task not found", db := db, emitted := [] } ∧
          deleteTaskRequest io actor param db =
            { status := 404, body := .message "Task not found", db := db, emitted := [] } ∧
          markTaskCompleteRequest io actor param body db =
            { status := 404, body := .message "Task not found", db := db, emitted := [] }) ∧
      (castObjectId param = none →
        updateTaskRequest io actor param body db =
            { status := 500, body := .errorMessage .cast, db := db, emitted := [] } ∧
          deleteTaskRequest io actor param db =
            { status := 500, body := .errorMessage .cast, db := db, emitted := [] } ∧
          markTaskCompleteRequest io actor param body db =
            { status := 500, body := .errorMessage .cast, db := db, emitted := [] }) ∧
      (updateTaskRequest io actor param body db).status ≠ 403 ∧
      (deleteTaskRequest io actor param db).status ≠ 403 ∧
      (markTaskCompleteRequest io actor param body db).status ≠ 403 ∧
      (updateTaskRequest io actor param body db).db = db ∧
      (deleteTaskRequest io actor param db).db = db ∧
      (markTaskCompleteRequest io actor param body db).db = db ∧
      (updateTaskRequest io actor param body db).emitted = [] ∧
      (deleteTaskRequest io actor param db).emitted = [] ∧
      (markTaskCompleteRequest io actor param body db).emitted = [] := by
  rcases hcast : castObjectId param with _ | id
  · simp [updateTaskRequest, deleteTaskRequest, markTaskCompleteRequest, hcast, castRejected]
  · obtain ⟨h1, h2, h3⟩ := handlers_absent io actor id body db (hnone id hcast)
    simp [updateTaskRequest, deleteTaskRequest, markTaskCompleteRequest, hcast, h1, h2, h3]

/-- Witness of C7 (amended): an admin addresses the well-formed id 2, which is not in the
sample database. -/
theorem requests_not_found_witness :
    castObjectId "000000000000000000000002" = some 2 ∧
      findById sampleDb.tasks 2 = none ∧
      (updateTaskRequest (some ⟨false⟩) ⟨20, "admin"⟩ "000000000000000000000002" Body.empty
        sampleDb).status = 404 ∧
      (deleteTaskRequest (some ⟨false⟩) ⟨20, "admin"⟩ "000000000000000000000002"
        sampleDb).status = 404 ∧
      (markTaskCompleteRequest (some ⟨false⟩) ⟨20, "admin"⟩ "000000000000000000000002"
        Body.empty sampleDb).status = 404 := by
  have hcast : castObjectId "000000000000000000000002" = some 2 := by decide
  obtain ⟨h1, h2, h3⟩ :=
    (requests_not_found (some ⟨false⟩) ⟨20, "admin"⟩ "000000000000000000000002" Body.empty
      sampleDb (fun id h => by rw [hcast] at h; cases h; decide)).1 (by rw [hcast]; rfl)
  rw [h1, h2, h3]
  exact ⟨hcast, by decide, rfl, rfl, rfl⟩

/-- Counterexample to C7 as stated: the path segment `abc` is no object id, so it resolves
to no stored task, yet an admin who addresses it is answered 500 by `updateTask`,
`deleteTask` and `markTaskComplete`, not 404. -/
theorem malformed_id_answers_500 :
    castObjectId "abc" = none ∧
      (∀ id, castObjectId "abc" = some id → findById sampleDb.tasks id = none) ∧
      (updateTaskRequest (some ⟨false⟩) ⟨20, "admin"⟩ "abc" Body.empty sampleDb).status = 500 ∧
      (deleteTaskRequest (some ⟨false⟩) ⟨20, "admin"⟩ "abc" sampleDb).status = 500 ∧
      (markTaskCompleteRequest (some ⟨false⟩) ⟨20, "admin"⟩ "abc" Body.empty
        sampleDb).status = 500 := by
  have hcast : castObjectId "abc" = none := by decide
  refine ⟨hcast, fun id h => ?_, by decide, by decide, by decide⟩
  rw [hcast] at h
  cases h

theorem findById_append_new {tasks : List Task} {task : Task}
    (hfresh : findById tasks task._id = none) :
    findById (tasks ++ [task]) task._id = some task := by
  simp only [findById] at hfresh ⊢
  rw [List.find?_append, hfresh]
  simp

theorem create_ok {db db1 : Db} {newId : ObjectId} {title description priority : Option String}
    {priorityNull : Bool} {dueDate : Option Date} {assignedTo : Option ObjectId}
    {createdBy : ObjectId} {task : Task}
    (h : create db newId title description priority priorityNull dueDate assignedTo createdBy =
      .ok (task, db1)) :
    ∃ ttl a, title = some ttl ∧ assignedTo = some a ∧
      task = { _id := newId, title := jsTrim ttl, description := description.map jsTrim,
               assignedTo := a, createdBy := createdBy,
               priority := priorityDefault priority priorityNull, status := some "todo",
               dueDate := dueDate, completedAt := none, tags := [] } ∧
      validate task = true ∧ findById db.tasks newId = none ∧
      db1 = { db with tasks := db.tasks ++ [task] } := by
  unfold create at h
  rcases title with _ | ttl
  · simp at h
  rcases assignedTo with _ | a
  · simp at h
  refine ⟨ttl, a, rfl, rfl, ?_⟩
  simp only at h
  split at h
  · rename_i hv
    split at h
    · simp at h
    · rename_i hf
      simp only [Except.ok.injEq, Prod.mk.injEq] at h
      obtain ⟨h1, h2⟩ := h
      subst h1
      refine ⟨rfl, hv, ?_, h2.symm⟩
      simpa using hf
  · simp at h

theorem createTask_cases (io : Option SocketServer) (newId : ObjectId) (actor : Actor)
    (body : Body) (db : Db) :
    ((createTask io newId actor body db).db = db ∧
        (createTask io newId actor body db).status = 500 ∧
        ∃ e, (createTask io newId actor body db).body = .errorMessage e) ∨
      ∃ task db1,
        create db newId body.title body.description body.priority (body.isNull .priority)
          body.dueDate body.assignedTo actor.id = .ok (task, db1) ∧
        (createTask io newId actor body db).db = db1 ∧
        ((createTask io newId actor body db).status = 201 ∧
            (createTask io newId actor body db).body = .taskData true task ∨
          (createTask io newId actor body db).status = 500 ∧
            ∃ e, (createTask io newId actor body db).body = .errorMessage e) := by
  rcases hc : create db newId body.title body.description body.priority
      (body.isNull .priority) body.dueDate body.assignedTo actor.id with e | ⟨task, db1⟩
  · left
    simp [createTask, hc]
  · right
    refine ⟨task, db1, rfl, ?_⟩
    rcases he : emit io (.taskAdded task) with e | events
    · simp [createTask, hc, he]
    · simp [createTask, hc, he]

/-- C8. Every task `createTask` adds to the collection, and the task a 201 answer carries
(which is stored under the generated id), has `createdBy` equal to the id of the actor; a
`createdBy` supplied in the request body has no influence on the outcome. -/
theorem createTask_createdBy (io : Option SocketServer) (newId : ObjectId) (actor : Actor)
    (body : Body) (db : Db) :
    (∀ t ∈ (createTask io newId actor body db).db.tasks,
        t ∈ db.tasks ∨ t.createdBy = actor.id) ∧
      ((createTask io newId actor body db).status = 201 →
        ∃ task, (createTask io newId actor body db).body = .taskData true task ∧
          findById (createTask io newId actor body db).db.tasks newId = some task ∧
          task.createdBy = actor.id) ∧
      ∀ supplied : Option ObjectId,
        createTask io newId actor { body with createdBy := supplied } db =
          createTask io newId actor body db := by
  refine ⟨?_, ?_, fun _ => rfl⟩
  · rcases createTask_cases io newId actor body db with ⟨hdb, _, _⟩ | ⟨task, db1, hc, hdb, _⟩
    · intro t ht
      rw [hdb] at ht
      exact Or.inl ht
    · obtain ⟨ttl, a, _, _, htask, _, _, hdb1⟩ := create_ok hc
      intro t ht
      rw [hdb, hdb1] at ht
      simp only [List.mem_append, List.mem_singleton] at ht
      rcases ht with ht | ht
      · exact Or.inl ht
      · right
        rw [ht, htask]
  · intro hok
    rcases createTask_cases io newId actor body db with ⟨_, h500, _⟩ | ⟨task, db1, hc, hdb, hr⟩
    · rw [h500] at hok
      exact absurd hok (by decide)
    · obtain ⟨ttl, a, _, _, htask, _, hfresh, hdb1⟩ := create_ok hc
      rcases hr with ⟨_, hbody⟩ | ⟨h500, _⟩
      · refine ⟨task, hbody, ?_, by rw [htask]⟩
        have hid : task._id = newId := by rw [htask]
        rw [hdb, hdb1]
        rw [← hid] at hfresh ⊢
        exact findById_append_new hfresh
      · rw [h500] at hok
        exact absurd hok (by decide)

/-- Witness of C8: the creator of the sample task files a request naming user 99 as creator. -/
theorem createTask_createdBy_witness :
    sampleCreate.createdBy = some 99 ∧
      ∃ task, (createTask (some ⟨false⟩) 2 ⟨11, "user"⟩ sampleCreate sampleDb).body =
          .taskData true task ∧
        findById (createTask (some ⟨false⟩) 2 ⟨11, "user"⟩ sampleCreate sampleDb).db.tasks 2 =
          some task ∧
        task.createdBy = 11 :=
  ⟨rfl, (createTask_createdBy (some ⟨false⟩) 2 ⟨11, "user"⟩ sampleCreate sampleDb).2.1
    (by decide)⟩

theorem create_of_valid (db : Db) (newId : ObjectId) (title : String)
    (description : Option String) (due : Date) (assignee createdBy : ObjectId)
    (hnonempty : jsTrim title ≠ "") (hfresh : findById db.tasks newId = none) :
    create db newId (some title) description none false (some due) (some assignee) createdBy =
      .ok ({ _id := newId, title := jsTrim title, description := description.map jsTrim,
             assignedTo := assignee, createdBy := createdBy, priority := some "medium",
             status := some "todo", dueDate := some due, completedAt := none, tags := [] },
           { db with tasks := db.tasks ++
              [{ _id := newId, title := jsTrim title, description := description.map jsTrim,
                 assignedTo := assignee, createdBy := createdBy, priority := some "medium",
                 status := some "todo", dueDate := some due, completedAt := none,
                 tags := [] }] }) := by
  have hv : validate
      { _id := newId, title := jsTrim title, description := description.map jsTrim,
        assignedTo := assignee, createdBy := createdBy, priority := some "medium",
        status := some "todo", dueDate := some due, completedAt := none, tags := [] } = true := by
    simp only [validate, Bool.and_eq_true]
    exact ⟨⟨⟨by simpa using hnonempty, by decide⟩, by decide⟩, rfl⟩
  simp only [create, priorityDefault, Bool.false_eq_true, if_false]
  rw [if_pos hv, hfresh]
  rfl

theorem getTasks_data (actor : Actor) (db : Db) :
    getTasks actor db =
      { status := 200,
        body := .taskList true
          (if actor.role = "admin" then db.tasks.map (populate db.users)
            else (db.tasks.filter (createdByOrAssignedTo actor.id)).map
              (populate db.users)).length
          (if actor.role = "admin" then db.tasks.map (populate db.users)
            else (db.tasks.filter (createdByOrAssignedTo actor.id)).map (populate db.users)),
        db := db, emitted := [] } := by
  by_cases h : actor.role = "admin" <;> simp [getTasks, h]

theorem mem_getTasks_of_createdBy (actor : Actor) (db : Db) (task : Task)
    (hmem : task ∈ db.tasks) (hcreator : task.createdBy = actor.id) :
    populate db.users task ∈
      (if actor.role = "admin" then db.tasks.map (populate db.users)
        else (db.tasks.filter (createdByOrAssignedTo actor.id)).map (populate db.users)) := by
  split
  · exact List.mem_map_of_mem _ hmem
  · refine List.mem_map_of_mem _ (List.mem_filter.mpr ⟨hmem, ?_⟩)
    simp [createdByOrAssignedTo, hcreator]

/-- C9. For a create body that carries a title which is not blank, a due date and an
assignee (any user, the actor or another) and names no priority (neither a value nor
`null`), and a generated id that is not in use: `createTask` stores the task, answers 201
unless the socket server raises, and
`getTasks` by the same actor (admin or not) on the resulting database lists an entry for
the stored task with `createdBy` equal to the actor, `status` `todo` and `priority`
`medium`. -/
theorem createTask_then_getTasks (io : Option SocketServer) (newId : ObjectId) (actor : Actor)
    (body : Body) (db : Db) (title : String) (due : Date) (assignee : ObjectId)
    (htitle : body.title = some title)
    (hnonempty : jsTrim title ≠ "")
    (hdue : body.dueDate = some due)
    (hassigned : body.assignedTo = some assignee)
    (hpriority : body.priority = none)
    (hnonull : body.isNull .priority = false)
    (hfresh : findById db.tasks newId = none) :
    ((∀ s, io = some s → s.raises = false) →
        (createTask io newId actor body db).status = 201) ∧
      ∃ task data,
        findById (createTask io newId actor body db).db.tasks newId = some task ∧
        (getTasks actor (createTask io newId actor body db).db).body =
          .taskList true data.length data ∧
        populate (createTask io newId actor body db).db.users task ∈ data ∧
        task.title = jsTrim title ∧ task.dueDate = some due ∧ task.assignedTo = assignee ∧
        (populate (createTask io newId actor body db).db.users task)._id = newId ∧
        (populate (createTask io newId actor body db).db.users task).createdBy = actor.id ∧
        (populate (createTask io newId actor body db).db.users task).status = some "todo" ∧
        (populate (createTask io newId actor body db).db.users task).priority =
          some "medium" := by
  have hc := create_of_valid db newId title body.description due assignee actor.id
    hnonempty hfresh
  have hdb : (createTask io newId actor body db).db =
      { db with tasks := db.tasks ++
        [{ _id := newId, title := jsTrim title, description := body.description.map jsTrim,
           assignedTo := assignee, createdBy := actor.id, priority := some "medium",
           status := some "todo", dueDate := some due, completedAt := none, tags := [] }] } := by
    simp only [createTask, htitle, hdue, hassigned, hpriority, hnonull, hc]
    rcases emit io _ with e | events <;> rfl
  constructor
  · intro hio
    simp only [createTask, htitle, hdue, hassigned, hpriority, hnonull, hc]
    obtain ⟨events, he⟩ := emit_ok hio
      (.taskAdded { _id := newId, title := jsTrim title,
                    description := body.description.map jsTrim, assignedTo := assignee,
                    createdBy := actor.id, priority := some "medium", status := some "todo",
                    dueDate := some due, completedAt := none, tags := [] })
    rw [he]
  · rw [hdb, getTasks_data]
    refine ⟨_, _, @findById_append_new db.tasks
        { _id := newId, title := jsTrim title, description := body.description.map jsTrim,
          assignedTo := assignee, createdBy := actor.id, priority := some "medium",
          status := some "todo", dueDate := some due, completedAt := none, tags := [] } hfresh,
      rfl, ?_, rfl, rfl, rfl, rfl, rfl, rfl, rfl⟩
    exact mem_getTasks_of_createdBy actor _ _ (by simp) rfl

/-- Witness of C9: user 11 creates a task assigned to user 10 and lists the tasks. -/
theorem createTask_then_getTasks_witness :
    ∃ task data,
      findById (createTask (some ⟨false⟩) 2 ⟨11, "user"⟩ sampleCreate sampleDb).db.tasks 2 =
        some task ∧
      (getTasks ⟨11, "user"⟩
          (createTask (some ⟨false⟩) 2 ⟨11, "user"⟩ sampleCreate sampleDb).db).body =
        .taskList true data.length data ∧
      populate (createTask (some ⟨false⟩) 2 ⟨11, "user"⟩ sampleCreate sampleDb).db.users task ∈
        data ∧
      task.assignedTo = 10 ∧ task.createdBy = 11 ∧ task.status = some "todo" ∧
      task.priority = some "medium" := by
  obtain ⟨task, data, h1, h2, h3, _, _, h6, _, h8, h9, h10⟩ :=
    (createTask_then_getTasks (some ⟨false⟩) 2 ⟨11, "user"⟩ sampleCreate sampleDb
      "Plan sprint" ⟨2024, 5, 0⟩ 10 (by decide) (by decide) (by decide) (by decide)
      (by decide) (by decide) (by decide)).2
  exact ⟨task, data, h1, h2, h3, h6, h8, h9, h10⟩

/-- C10. `getTasks` answers 200 with `count` equal to the length of `data` and leaves the
database alone. For an admin `data` is every stored task, populated and in store order; for
any other actor it is exactly the stored tasks whose `createdBy` or `assignedTo` is the id
of the actor, populated and in store order, so an entry is listed if and only if it comes
from such a task. -/
theorem getTasks_visibility (actor : Actor) (db : Db) :
    ∃ data : List PopulatedTask,
      getTasks actor db =
        { status := 200, body := .taskList true data.length data, db := db, emitted := [] } ∧
      (actor.role = "admin" → data = db.tasks.map (populate db.users)) ∧
      (actor.role ≠ "admin" →
        data = (db.tasks.filter
            (fun t => decide (t.createdBy = actor.id ∨ t.assignedTo = actor.id))).map
          (populate db.users) ∧
        ∀ entry, entry ∈ data ↔
          ∃ t ∈ db.tasks, (t.createdBy = actor.id ∨ t.assignedTo = actor.id) ∧
            populate db.users t = entry) := by
  have hfilter : createdByOrAssignedTo actor.id =
      fun t => decide (t.createdBy = actor.id ∨ t.assignedTo = actor.id) := by
    funext t
    rw [Bool.eq_iff_iff]
    simp [createdByOrAssignedTo]
  refine ⟨_, getTasks_data actor db, ?_, ?_⟩
  · intro hadmin
    rw [if_pos hadmin]
  · intro hrole
    rw [if_neg hrole, hfilter]
    refine ⟨rfl, fun entry => ?_⟩
    simp only [List.mem_map, List.mem_filter, decide_eq_true_eq]
    constructor
    · rintro ⟨t, ⟨ht, hvis⟩, rfl⟩
      exact ⟨t, ht, hvis, rfl⟩
    · rintro ⟨t, ht, hvis, rfl⟩
      exact ⟨t, ⟨ht, hvis⟩, rfl⟩

/-! ## The handlers keep every stored task valid -/

theorem mem_replaceDoc {task t : Task} {tasks : List Task} (h : t ∈ replaceDoc task tasks) :
    t = task ∨ t ∈ tasks := by
  induction tasks with
  | nil => simp [replaceDoc] at h
  | cons x xs ih =>
    unfold replaceDoc at h
    split at h
    · rcases List.mem_cons.mp h with h | h
      · exact Or.inl h
      · exact Or.inr (List.mem_cons_of_mem _ h)
    · rcases List.mem_cons.mp h with h | h
      · exact Or.inr (h ▸ List.mem_cons_self _ _)
      · exact (ih h).imp id (List.mem_cons_of_mem _)

theorem mem_removeDoc {id : ObjectId} {t : Task} {tasks : List Task}
    (h : t ∈ removeDoc id tasks) : t ∈ tasks := by
  induction tasks with
  | nil => simp [removeDoc] at h
  | cons x xs ih =>
    unfold removeDoc at h
    split at h
    · exact List.mem_cons_of_mem _ h
    · rcases List.mem_cons.mp h with h | h
      · exact h ▸ List.mem_cons_self _ _
      · exact List.mem_cons_of_mem _ (ih h)

theorem saveAndPublish_valid {io : Option SocketServer} {db : Db} {task : Task}
    (hdb : db.Valid) : (saveAndPublish io db task).db.Valid := by
  unfold saveAndPublish save
  by_cases hv : validate task = true
  · have hnew : Db.Valid { db with tasks := replaceDoc task db.tasks } := by
      intro t ht
      rcases mem_replaceDoc ht with h | h
      · exact h ▸ hv
      · exact hdb t h
    simp only [hv, if_true]
    rcases emit io (.taskUpdated task) with e | events <;> exact hnew
  · simpa [hv] using hdb

theorem updateTask_valid (io : Option SocketServer) (actor : Actor) (id : ObjectId)
    (body : Body) (db : Db) (hdb : db.Valid) : (updateTask io actor id body db).db.Valid := by
  unfold updateTask
  split
  · exact hdb
  · split
    · split
      · exact hdb
      · exact saveAndPublish_valid hdb
    · split
      · split
        · exact hdb
        · exact saveAndPublish_valid hdb
      · exact hdb

theorem markTaskComplete_valid (io : Option SocketServer) (actor : Actor) (id : ObjectId)
    (body : Body) (db : Db) (hdb : db.Valid) :
    (markTaskComplete io actor id body db).db.Valid := by
  unfold markTaskComplete
  split
  · exact hdb
  · split
    · exact hdb
    · exact saveAndPublish_valid hdb

theorem deleteTask_valid (io : Option SocketServer) (actor : Actor) (id : ObjectId)
    (db : Db) (hdb : db.Valid) : (deleteTask io actor id db).db.Valid := by
  have hrem : (findByIdAndDelete db id).Valid := fun t ht => hdb t (mem_removeDoc ht)
  unfold deleteTask
  split
  · exact hdb
  · split
    · exact hdb
    · simp only
      split <;> exact hrem

theorem createTask_valid (io : Option SocketServer) (newId : ObjectId) (actor : Actor)
    (body : Body) (db : Db) (hdb : db.Valid) : (createTask io newId actor body db).db.Valid := by
  rcases createTask_cases io newId actor body db with ⟨h, _, _⟩ | ⟨task, db1, hc, h, _⟩
  · rw [h]; exact hdb
  · obtain ⟨_, _, _, _, _, hv, _, hdb1⟩ := create_ok hc
    rw [h, hdb1]
    intro t ht
    simp only [List.mem_append, List.mem_singleton] at ht
    rcases ht with ht | ht
    · exact hdb t ht
    · exact ht ▸ hv


section UpsertLemmas
variable {κ β : Type} [DecidableEq κ]

theorem total_upsert (g : β → Nat) (key : κ) (fresh : β) (f : β → β) (d : Nat)
    (hfresh : g (f fresh) = d) (hstep : ∀ v, g (f v) = g v + d)
    (m : List (κ × β)) (k : κ) :
    total g (upsert key fresh f m) k = total g m k + if key = k then d else 0 := by
  induction m with
  | nil =>
    by_cases h : key = k <;> simp [upsert, total, h, hfresh]
  | cons e rest ih =>
    obtain ⟨k1, v⟩ := e
    unfold upsert
    by_cases h1 : k1 = key
    · subst h1
      by_cases h : k1 = k
      · simp [total, h, hstep]; omega
      · simp [total, h]
    · simp only [h1, if_false]
      unfold total at ih ⊢
      by_cases h : k1 = k
      · simp only [List.filter_cons, h, decide_True, if_true, List.map_cons, List.sum_cons]
        rw [ih]; omega
      · simp only [List.filter_cons, h, decide_False, Bool.false_eq_true, if_false]
        exact ih

theorem keys_upsert (key : κ) (fresh : β) (f : β → β) (m : List (κ × β)) :
    (upsert key fresh f m).map Prod.fst =
      if key ∈ m.map Prod.fst then m.map Prod.fst else m.map Prod.fst ++ [key] := by
  induction m with
  | nil => simp [upsert]
  | cons e rest ih =>
    obtain ⟨k1, v⟩ := e
    unfold upsert
    by_cases h1 : k1 = key
    · simp [h1]
    · have h2 : ¬ key = k1 := fun h => h1 h.symm
      simp only [h1, if_false, List.map_cons, ih, List.mem_cons, h2, false_or]
      split <;> simp

theorem nodup_keys_upsert (key : κ) (fresh : β) (f : β → β) (m : List (κ × β))
    (h : (m.map Prod.fst).Nodup) : ((upsert key fresh f m).map Prod.fst).Nodup := by
  rw [keys_upsert]
  split
  · exact h
  · rename_i hk
    exact List.Nodup.append h (List.nodup_singleton _) (by simpa using hk)

theorem total_of_mem (g : β → Nat) (m : List (κ × β)) (h : (m.map Prod.fst).Nodup)
    (k : κ) (v : β) (hmem : (k, v) ∈ m) : total g m k = g v := by
  induction m with
  | nil => simp at hmem
  | cons e rest ih =>
    obtain ⟨k1, v1⟩ := e
    simp only [List.map_cons, List.nodup_cons, List.mem_map, not_exists, not_and] at h
    rcases List.mem_cons.mp hmem with heq | hrest
    · cases heq
      have hnone : rest.filter (fun e => decide (e.1 = k)) = [] := by
        rw [List.filter_eq_nil_iff]
        intro e he
        simpa using h.1 e he
      simp [total, hnone]
    · have hne : k1 ≠ k := by
        intro hk
        exact h.1 (k, v) hrest hk.symm
      have := ih h.2 hrest
      unfold total at this ⊢
      simpa [List.filter_cons, hne] using this

theorem total_eq_zero_of_not_mem (g : β → Nat) (m : List (κ × β)) (k : κ)
    (h : k ∉ m.map Prod.fst) : total g m k = 0 := by
  have hnone : m.filter (fun e => decide (e.1 = k)) = [] := by
    rw [List.filter_eq_nil_iff]
    intro e he
    simp only [decide_eq_true_eq]
    intro hk
    exact h (List.mem_map.mpr ⟨e, he, hk⟩)
  simp [total, hnone]


theorem grandTotal_upsert (g : β → Nat) (key : κ) (fresh : β) (f : β → β) (d : Nat)
    (hfresh : g (f fresh) = d) (hstep : ∀ v, g (f v) = g v + d) (m : List (κ × β)) :
    grandTotal g (upsert key fresh f m) = grandTotal g m + d := by
  induction m with
  | nil => simp [upsert, grandTotal, hfresh]
  | cons e rest ih =>
    obtain ⟨k1, v⟩ := e
    unfold upsert
    by_cases h1 : k1 = key
    · simp [h1, grandTotal, hstep]; omega
    · simp only [h1, if_false]
      unfold grandTotal at ih ⊢
      simp only [List.map_cons, List.sum_cons, ih]; omega

theorem mem_upsert {key : κ} {fresh : β} {f : β → β} {m : List (κ × β)} {k : κ} {v : β}
    (h : (k, v) ∈ upsert key fresh f m) :
    (k, v) ∈ m ∨ (k = key ∧ (v = f fresh ∨ ∃ v0, (key, v0) ∈ m ∧ v = f v0)) := by
  induction m with
  | nil =>
    simp only [upsert, List.mem_singleton, Prod.mk.injEq] at h
    exact Or.inr ⟨h.1, Or.inl h.2⟩
  | cons e rest ih =>
    obtain ⟨k1, v1⟩ := e
    unfold upsert at h
    by_cases h1 : k1 = key
    · simp only [h1, if_true, List.mem_cons, Prod.mk.injEq] at h
      rcases h with ⟨hk, hv⟩ | h
      · exact Or.inr ⟨hk, Or.inr ⟨v1, by simp [h1], hv⟩⟩
      · exact Or.inl (List.mem_cons_of_mem _ h)
    · simp only [h1, if_false, List.mem_cons] at h
      rcases h with h | h
      · exact Or.inl (h ▸ List.mem_cons_self _ _)
      · rcases ih h with h | ⟨hk, h | ⟨v0, hv0, hv⟩⟩
        · exact Or.inl (List.mem_cons_of_mem _ h)
        · exact Or.inr ⟨hk, Or.inl h⟩
        · exact Or.inr ⟨hk, Or.inr ⟨v0, List.mem_cons_of_mem _ hv0, hv⟩⟩

theorem foldl_total {α : Type} (g : β → Nat) (step : List (κ × β) → α → List (κ × β))
    (p : α → κ → Bool)
    (hstep : ∀ m x k, total g (step m x) k = total g m k + if p x k then 1 else 0)
    (xs : List α) (m0 : List (κ × β)) (k : κ) :
    total g (xs.foldl step m0) k = total g m0 k + xs.countP (fun x => p x k) := by
  induction xs generalizing m0 with
  | nil => simp
  | cons x xs ih =>
    rw [List.foldl_cons, ih, hstep, List.countP_cons]
    split <;> omega

theorem mem_keys_upsert (key : κ) (fresh : β) (f : β → β) (m : List (κ × β)) (k : κ) :
    k ∈ (upsert key fresh f m).map Prod.fst ↔ k ∈ m.map Prod.fst ∨ key = k := by
  rw [keys_upsert]
  split
  · rename_i h
    constructor
    · exact Or.inl
    · rintro (h1 | h1)
      · exact h1
      · exact h1 ▸ h
  · rw [List.mem_append, List.mem_singleton]
    constructor
    · rintro (h1 | h1)
      · exact Or.inl h1
      · exact Or.inr h1.symm
    · rintro (h1 | h1)
      · exact Or.inl h1
      · exact Or.inr h1.symm

end UpsertLemmas

section FoldLemmas
variable {κ β : Type}

theorem foldl_grandTotal {α : Type} (g : β → Nat) (step : List (κ × β) → α → List (κ × β))
    (p : α → Bool)
    (hstep : ∀ m x, grandTotal g (step m x) = grandTotal g m + if p x then 1 else 0)
    (xs : List α) (m0 : List (κ × β)) :
    grandTotal g (xs.foldl step m0) = grandTotal g m0 + xs.countP p := by
  induction xs generalizing m0 with
  | nil => simp
  | cons x xs ih =>
    rw [List.foldl_cons, ih, hstep, List.countP_cons]
    split <;> omega

theorem foldl_nodup_keys {α : Type} (step : List (κ × β) → α → List (κ × β))
    (hstep : ∀ m x, (m.map Prod.fst).Nodup → ((step m x).map Prod.fst).Nodup)
    (xs : List α) (m0 : List (κ × β)) (h0 : (m0.map Prod.fst).Nodup) :
    ((xs.foldl step m0).map Prod.fst).Nodup := by
  induction xs generalizing m0 with
  | nil => exact h0
  | cons x xs ih => exact ih _ (hstep m0 x h0)

theorem foldl_mem_keys {α : Type} (step : List (κ × β) → α → List (κ × β))
    (sel : α → Option κ)
    (hstep : ∀ m x k, k ∈ (step m x).map Prod.fst ↔ k ∈ m.map Prod.fst ∨ sel x = some k)
    (xs : List α) (m0 : List (κ × β)) (k : κ) :
    k ∈ (xs.foldl step m0).map Prod.fst ↔
      k ∈ m0.map Prod.fst ∨ ∃ x ∈ xs, sel x = some k := by
  induction xs generalizing m0 with
  | nil => simp
  | cons x xs ih =>
    rw [List.foldl_cons, ih, hstep]
    simp only [List.mem_cons, exists_eq_or_imp]
    tauto

theorem foldl_invariant {α : Type} (step : List (κ × β) → α → List (κ × β))
    (P : κ → β → Prop)
    (hstep : ∀ m x, (∀ k v, (k, v) ∈ m → P k v) → ∀ k v, (k, v) ∈ step m x → P k v)
    (xs : List α) (m0 : List (κ × β)) (h0 : ∀ k v, (k, v) ∈ m0 → P k v) :
    ∀ k v, (k, v) ∈ xs.foldl step m0 → P k v := by
  induction xs generalizing m0 with
  | nil => exact h0
  | cons x xs ih => exact ih _ (hstep m0 x h0)

end FoldLemmas


theorem tally_spec {α : Type} (keyOf : α → String) (xs : List α) :
    ((xs.foldl (fun m x => upsert (keyOf x) 0 (fun n => n + 1) m) []).map Prod.fst).Nodup ∧
      (∀ k, k ∈ (xs.foldl (fun m x => upsert (keyOf x) 0 (fun n => n + 1) m) []).map Prod.fst ↔
        ∃ x ∈ xs, keyOf x = k) ∧
      (∀ k n, (k, n) ∈ xs.foldl (fun m x => upsert (keyOf x) 0 (fun n => n + 1) m) [] →
        n = xs.countP (fun x => decide (keyOf x = k))) ∧
      grandTotal id (xs.foldl (fun m x => upsert (keyOf x) 0 (fun n => n + 1) m) []) =
        xs.length := by
  have hnodup := foldl_nodup_keys
    (fun (m : List (String × Nat)) x => upsert (keyOf x) 0 (fun n => n + 1) m)
    (fun m x h => nodup_keys_upsert _ _ _ m h) xs [] List.nodup_nil
  refine ⟨hnodup, fun k => ?_, fun k n hmem => ?_, ?_⟩
  · have := foldl_mem_keys
      (fun (m : List (String × Nat)) x => upsert (keyOf x) 0 (fun n => n + 1) m)
      (fun x => some (keyOf x))
      (fun m x k => by simpa using mem_keys_upsert (keyOf x) 0 (fun n => n + 1) m k) xs [] k
    simpa using this
  · have h1 := total_of_mem id _ hnodup k n hmem
    have h2 := foldl_total id
      (fun (m : List (String × Nat)) x => upsert (keyOf x) 0 (fun n => n + 1) m)
      (fun x k => decide (keyOf x = k))
      (fun m x k => by
        simpa using total_upsert id (keyOf x) 0 (fun n => n + 1) 1 rfl (fun _ => rfl) m k)
      xs [] k
    rw [h1] at h2
    simpa [total] using h2
  · have := foldl_grandTotal id
      (fun (m : List (String × Nat)) x => upsert (keyOf x) 0 (fun n => n + 1) m)
      (fun _ => true)
      (fun m x => by
        simpa using grandTotal_upsert id (keyOf x) 0 (fun n => n + 1) 1 rfl (fun _ => rfl) m)
      xs []
    simpa [grandTotal] using this

theorem foldl_pair {α σ τ : Type} (f : σ → α → σ) (g : τ → α → τ) (xs : List α) (a : σ)
    (b : τ) :
    xs.foldl (fun acc x => (f acc.1 x, g acc.2 x)) (a, b) = (xs.foldl f a, xs.foldl g b) := by
  induction xs generalizing a b with
  | nil => rfl
  | cons x xs ih => simp only [List.foldl_cons, ih]

theorem countMaps_eq (tasks : List Task) :
    countMaps tasks =
      (tasks.foldl (fun m t => upsert (orElse t.status "todo") 0 (fun n => n + 1) m) [],
       tasks.foldl (fun m t => upsert (orElse t.priority "normal") 0 (fun n => n + 1) m) []) :=
  foldl_pair (fun (m : List (String × Nat)) (t : Task) =>
      upsert (orElse t.status "todo") 0 (fun n => n + 1) m)
    (fun (m : List (String × Nat)) (t : Task) =>
      upsert (orElse t.priority "normal") 0 (fun n => n + 1) m) tasks [] []

theorem orElse_of_truthy {v : Option String} {s fallback : String} (h : v = some s)
    (hs : s ≠ "") : orElse v fallback = s := by
  simp [orElse, h, hs]

theorem breakdown_spec (keyOf : Task → String) (field : Task → Option String)
    (tasks : List Task)
    (hfield : ∀ t ∈ tasks, ∃ s, field t = some s ∧ keyOf t = s) :
    ((toBreakdown
        (tasks.foldl (fun m t => upsert (keyOf t) 0 (fun n => n + 1) m) [])).map
          (fun e => e._id)).Nodup ∧
      (∀ s, s ∈ (toBreakdown
          (tasks.foldl (fun m t => upsert (keyOf t) 0 (fun n => n + 1) m) [])).map
            (fun e => e._id) ↔ ∃ t ∈ tasks, field t = some s) ∧
      (∀ e ∈ toBreakdown (tasks.foldl (fun m t => upsert (keyOf t) 0 (fun n => n + 1) m) []),
        e.count = tasks.countP (fun t => decide (field t = some e._id)) ∧ 0 < e.count) ∧
      ((toBreakdown
        (tasks.foldl (fun m t => upsert (keyOf t) 0 (fun n => n + 1) m) [])).map
          (fun e => e.count)).sum = tasks.length := by
  obtain ⟨h1, h2, h3, h4⟩ := tally_spec keyOf tasks
  have hkeys : (toBreakdown
      (tasks.foldl (fun m t => upsert (keyOf t) 0 (fun n => n + 1) m) [])).map
        (fun e => e._id) =
      (tasks.foldl (fun m t => upsert (keyOf t) 0 (fun n => n + 1) m) []).map Prod.fst := by
    simp [toBreakdown]
  have hcongr : ∀ k, (∃ t ∈ tasks, keyOf t = k) ↔ ∃ t ∈ tasks, field t = some k := by
    intro k
    constructor
    · rintro ⟨t, ht, hk⟩
      obtain ⟨s, hs, hks⟩ := hfield t ht
      exact ⟨t, ht, by rw [hs, ← hks, hk]⟩
    · rintro ⟨t, ht, hk⟩
      obtain ⟨s, hs, hks⟩ := hfield t ht
      refine ⟨t, ht, ?_⟩
      rw [hs] at hk
      rw [hks]
      exact Option.some.inj hk
  have hcount : ∀ k, tasks.countP (fun t => decide (keyOf t = k)) =
      tasks.countP (fun t => decide (field t = some k)) := by
    intro k
    apply List.countP_congr
    intro t ht
    obtain ⟨s, hs, hks⟩ := hfield t ht
    simp only [decide_eq_true_eq, hs, hks, Option.some.injEq]
  refine ⟨hkeys ▸ h1, fun s => ?_, fun e he => ?_, ?_⟩
  · rw [hkeys, h2, hcongr]
  · have hmem : (e._id, e.count) ∈
        tasks.foldl (fun m t => upsert (keyOf t) 0 (fun n => n + 1) m) [] := by
      simp only [toBreakdown, List.mem_map] at he
      obtain ⟨kv, hkv, rfl⟩ := he
      exact hkv
    have hc := h3 _ _ hmem
    rw [hcount] at hc
    refine ⟨hc, ?_⟩
    have hex : ∃ t ∈ tasks, field t = some e._id :=
      (hcongr _).mp ((h2 _).mp (List.mem_map.mpr ⟨_, hmem, rfl⟩))
    rw [hc]
    obtain ⟨t, ht, hts⟩ := hex
    exact List.countP_pos_iff.mpr ⟨t, ht, by simpa using hts⟩
  · simpa [toBreakdown, grandTotal] using h4

/-! ## Totals and breakdowns -/

theorem length_filter_add_filter_not {α : Type} (p : α → Bool) (xs : List α) :
    (xs.filter p).length + (xs.filter (fun x => !p x)).length = xs.length := by
  induction xs with
  | nil => rfl
  | cons x xs ih =>
    by_cases h : p x = true
    · simp only [List.filter_cons, h, if_true, Bool.not_true, Bool.false_eq_true, if_false,
        List.length_cons]
      omega
    · have h2 : p x = false := by simpa using h
      simp only [List.filter_cons, h2, Bool.false_eq_true, if_false, Bool.not_false, if_true,
        List.length_cons]
      omega

/-- C11. For every task set the analytics result has `totalTasks` equal to the number of
tasks, `completedTasks` equal to the number of tasks whose status is `completed`, and
`pendingTasks = totalTasks - completedTasks` (the two parts add up to the total); the
handler answers with this result for the tasks it fetched. -/
theorem analytics_pending (tasks : List Task) :
    (analytics tasks).totalTasks = tasks.length ∧
      (analytics tasks).completedTasks =
        tasks.countP (fun t => decide (t.status = some "completed")) ∧
      (analytics tasks).pendingTasks =
        (analytics tasks).totalTasks - (analytics tasks).completedTasks ∧
      (analytics tasks).completedTasks + (analytics tasks).pendingTasks =
        (analytics tasks).totalTasks ∧
      ∀ (actor : Actor) (db : Db),
        (getTaskAnalytics actor db).data = analytics (matchedTasks actor db) := by
  have hsum := length_filter_add_filter_not (fun t : Task => t.status == some "completed") tasks
  have hpend : (analytics tasks).pendingTasks =
      (tasks.filter (fun t => !(t.status == some "completed"))).length := rfl
  have hcomp : (analytics tasks).completedTasks =
      (tasks.filter (fun t => t.status == some "completed")).length := rfl
  have htot : (analytics tasks).totalTasks = tasks.length := rfl
  refine ⟨rfl, ?_, ?_, ?_, fun _ _ => rfl⟩
  · rw [hcomp, List.countP_eq_length_filter]
    congr 2
    funext t
    rw [Bool.eq_iff_iff]
    simp
  · rw [hpend, hcomp, htot]; omega
  · rw [hpend, hcomp, htot]; omega

/-- C12. For every task set in which each task carries a status and a priority (a value
that is not the empty string), `statusBreakdown` lists each status value at most once, lists
a value exactly when some task has it, gives each entry the number of tasks with that
status, which is positive, and its counts add up to `totalTasks`; `priorityBreakdown` does
the same for priority. -/
theorem breakdowns_exact (tasks : List Task)
    (hstatus : ∀ t ∈ tasks, ∃ s, t.status = some s ∧ s ≠ "")
    (hpriority : ∀ t ∈ tasks, ∃ p, t.priority = some p ∧ p ≠ "") :
    (((analytics tasks).statusBreakdown.map (fun e => e._id)).Nodup ∧
      (∀ s, s ∈ (analytics tasks).statusBreakdown.map (fun e => e._id) ↔
        ∃ t ∈ tasks, t.status = some s) ∧
      (∀ e ∈ (analytics tasks).statusBreakdown,
        e.count = tasks.countP (fun t => decide (t.status = some e._id)) ∧ 0 < e.count) ∧
      ((analytics tasks).statusBreakdown.map (fun e => e.count)).sum =
        (analytics tasks).totalTasks) ∧
    (((analytics tasks).priorityBreakdown.map (fun e => e._id)).Nodup ∧
      (∀ p, p ∈ (analytics tasks).priorityBreakdown.map (fun e => e._id) ↔
        ∃ t ∈ tasks, t.priority = some p) ∧
      (∀ e ∈ (analytics tasks).priorityBreakdown,
        e.count = tasks.countP (fun t => decide (t.priority = some e._id)) ∧ 0 < e.count) ∧
      ((analytics tasks).priorityBreakdown.map (fun e => e.count)).sum =
        (analytics tasks).totalTasks) := by
  have hs : (analytics tasks).statusBreakdown = toBreakdown
      (tasks.foldl (fun m t => upsert (orElse t.status "todo") 0 (fun n => n + 1) m) []) := by
    simp only [analytics, countMaps_eq]
  have hp : (analytics tasks).priorityBreakdown = toBreakdown
      (tasks.foldl (fun m t => upsert (orElse t.priority "normal") 0 (fun n => n + 1) m)
        []) := by
    simp only [analytics, countMaps_eq]
  have ht : (analytics tasks).totalTasks = tasks.length := rfl
  rw [hs, hp, ht]
  constructor
  · exact breakdown_spec (fun t => orElse t.status "todo") (fun t => t.status) tasks
      (fun t h => by
        obtain ⟨s, h1, h2⟩ := hstatus t h
        exact ⟨s, h1, orElse_of_truthy h1 h2⟩)
  · exact breakdown_spec (fun t => orElse t.priority "normal") (fun t => t.priority) tasks
      (fun t h => by
        obtain ⟨p, h1, h2⟩ := hpriority t h
        exact ⟨p, h1, orElse_of_truthy h1 h2⟩)

/-! ## Monthly trends -/

theorem monthlyTrendsMap_eq (tasks : List Task) :
    monthlyTrendsMap tasks = tasks.foldl trendStep [] := rfl

theorem trendStep_none {m : List ((Int × Nat) × MonthlyTrend)} {t : Task}
    (h : t.dueDate = none) : trendStep m t = m := by
  simp [trendStep, h]

theorem trendStep_some {m : List ((Int × Nat) × MonthlyTrend)} {t : Task} {d : Date}
    (h : t.dueDate = some d) :
    trendStep m t =
      upsert (monthKey d)
        { count := 0, completed := 0, year := d.year, month := d.month.val + 1 }
        (fun e =>
          { e with
            count := e.count + 1
            completed := if t.status = some "completed" then e.completed + 1
              else e.completed })
        m := by
  simp [trendStep, h]

theorem dueIn_none {t : Task} (h : t.dueDate = none) (year : Int) (month : Nat) :
    dueIn year month t = false := by
  simp [dueIn, h]

theorem dueIn_some {t : Task} {d : Date} (h : t.dueDate = some d) (k : Int × Nat) :
    dueIn k.1 k.2 t = decide (monthKey d = k) := by
  rw [Bool.eq_iff_iff]
  simp [dueIn, h, monthKey, Prod.ext_iff]

theorem trendStep_nodup (m : List ((Int × Nat) × MonthlyTrend)) (t : Task)
    (h : (m.map Prod.fst).Nodup) : ((trendStep m t).map Prod.fst).Nodup := by
  rcases hd : t.dueDate with _ | d
  · rw [trendStep_none hd]; exact h
  · rw [trendStep_some hd]; exact nodup_keys_upsert _ _ _ m h

theorem trendStep_count (m : List ((Int × Nat) × MonthlyTrend)) (t : Task) (k : Int × Nat) :
    total (fun e => e.count) (trendStep m t) k =
      total (fun e => e.count) m k + if dueIn k.1 k.2 t then 1 else 0 := by
  rcases hd : t.dueDate with _ | d
  · rw [trendStep_none hd, dueIn_none hd]; simp
  · rw [trendStep_some hd, dueIn_some hd,
      total_upsert (fun e : MonthlyTrend => e.count) _ _ _ 1 rfl (fun _ => rfl)]
    by_cases hk : monthKey d = k <;> simp [hk]

theorem trendStep_completed (m : List ((Int × Nat) × MonthlyTrend)) (t : Task)
    (k : Int × Nat) :
    total (fun e => e.completed) (trendStep m t) k =
      total (fun e => e.completed) m k +
        if (dueIn k.1 k.2 t && t.status == some "completed") then 1 else 0 := by
  rcases hd : t.dueDate with _ | d
  · rw [trendStep_none hd, dueIn_none hd]; simp
  · rw [trendStep_some hd, dueIn_some hd]
    by_cases hc : t.status = some "completed"
    · rw [total_upsert (fun e : MonthlyTrend => e.completed) _ _ _ 1 (by simp [hc])
        (fun _ => by simp [hc])]
      by_cases hk : monthKey d = k <;> simp [hk, hc]
    · rw [total_upsert (fun e : MonthlyTrend => e.completed) _ _ _ 0 (by simp [hc])
        (fun _ => by simp [hc])]
      simp [hc]

theorem trendStep_grand (m : List ((Int × Nat) × MonthlyTrend)) (t : Task) :
    grandTotal (fun e => e.count) (trendStep m t) =
      grandTotal (fun e => e.count) m + if t.dueDate.isSome then 1 else 0 := by
  rcases hd : t.dueDate with _ | d
  · rw [trendStep_none hd]; simp
  · rw [trendStep_some hd,
      grandTotal_upsert (fun e : MonthlyTrend => e.count) _ _ _ 1 rfl (fun _ => rfl)]
    simp

theorem trendStep_keyed (m : List ((Int × Nat) × MonthlyTrend)) (t : Task)
    (h : ∀ k v, (k, v) ∈ m → (v.year, v.month) = k) :
    ∀ k v, (k, v) ∈ trendStep m t → (v.year, v.month) = k := by
  rcases hd : t.dueDate with _ | d
  · rw [trendStep_none hd]; exact h
  · rw [trendStep_some hd]
    intro k v hmem
    rcases mem_upsert hmem with h1 | ⟨hk, h1 | ⟨v0, hv0, h1⟩⟩
    · exact h k v h1
    · rw [hk, h1]; rfl
    · rw [hk, h1]
      exact h (monthKey d) v0 hv0

theorem monthlyTrendsMap_spec (tasks : List Task) :
    ((monthlyTrendsMap tasks).map Prod.fst).Nodup ∧
      (∀ k v, (k, v) ∈ monthlyTrendsMap tasks →
        (v.year, v.month) = k ∧
        v.count = tasks.countP (dueIn k.1 k.2) ∧
        v.completed =
          tasks.countP (fun t => dueIn k.1 k.2 t && t.status == some "completed")) ∧
      grandTotal (fun e => e.count) (monthlyTrendsMap tasks) =
        tasks.countP (fun t => t.dueDate.isSome) := by
  rw [monthlyTrendsMap_eq]
  have hnodup := foldl_nodup_keys trendStep trendStep_nodup tasks [] List.nodup_nil
  refine ⟨hnodup, fun k v hmem => ⟨?_, ?_, ?_⟩, ?_⟩
  · exact foldl_invariant trendStep (fun k v => (v.year, v.month) = k) trendStep_keyed tasks []
      (fun _ _ h => by simp at h) k v hmem
  · have h1 := total_of_mem (fun e : MonthlyTrend => e.count) _ hnodup k v hmem
    have h2 := foldl_total (fun e : MonthlyTrend => e.count) trendStep
      (fun t k => dueIn k.1 k.2 t) trendStep_count tasks [] k
    rw [h1] at h2
    simpa [total] using h2
  · have h1 := total_of_mem (fun e : MonthlyTrend => e.completed) _ hnodup k v hmem
    have h2 := foldl_total (fun e : MonthlyTrend => e.completed) trendStep
      (fun t k => dueIn k.1 k.2 t && t.status == some "completed") trendStep_completed tasks
      [] k
    rw [h1] at h2
    simpa [total] using h2
  · have := foldl_grandTotal (fun e : MonthlyTrend => e.count) trendStep
      (fun t => t.dueDate.isSome) trendStep_grand tasks []
    simpa [grandTotal] using this

theorem trendsOrdered_iff (a b : MonthlyTrend) :
    trendsOrdered a b ↔ a.year < b.year ∨ (a.year = b.year ∧ a.month ≤ b.month) := by
  unfold trendsOrdered compareTrends
  by_cases h : a.year = b.year
  · simp only [h, ne_eq, not_true_eq_false, if_false, lt_self_iff_false, true_and, false_or]
    omega
  · simp only [ne_eq, h, not_false_eq_true, if_true, false_and, or_false]
    omega

theorem trendsOrdered_total (a b : MonthlyTrend) : trendsOrdered a b ∨ trendsOrdered b a := by
  rw [trendsOrdered_iff, trendsOrdered_iff]
  omega

theorem trendsOrdered_trans (a b c : MonthlyTrend) (hab : trendsOrdered a b)
    (hbc : trendsOrdered b c) : trendsOrdered a c := by
  rw [trendsOrdered_iff] at hab hbc ⊢
  omega

theorem monthlyTrends_sorted (tasks : List Task) :
    (analytics tasks).monthlyTrends.Sorted trendsOrdered :=
  @List.sorted_insertionSort _ trendsOrdered _ ⟨trendsOrdered_total⟩ ⟨trendsOrdered_trans⟩ _

theorem monthlyTrends_perm (tasks : List Task) :
    List.Perm (analytics tasks).monthlyTrends ((monthlyTrendsMap tasks).map Prod.snd) :=
  List.perm_insertionSort trendsOrdered _

theorem mem_monthlyTrends {tasks : List Task} {e : MonthlyTrend}
    (h : e ∈ (analytics tasks).monthlyTrends) :
    ((e.year, e.month), e) ∈ monthlyTrendsMap tasks := by
  have h1 := (monthlyTrends_perm tasks).mem_iff.mp h
  obtain ⟨⟨k, v⟩, hkv, rfl⟩ := List.mem_map.mp h1
  have := ((monthlyTrendsMap_spec tasks).2.1 k v hkv).1
  simpa [this] using hkv

/-- C13. For every task set the `monthlyTrends` list is strictly ascending in the
lexicographic order on (year, month): of any two entries the earlier one in the list has a
smaller year, or the same year and a smaller month; in particular no two entries share a
(year, month). -/
theorem monthlyTrends_strictly_ascending (tasks : List Task) :
    (analytics tasks).monthlyTrends.Pairwise
      (fun a b => a.year < b.year ∨ (a.year = b.year ∧ a.month < b.month)) := by
  have hkeys : ((monthlyTrendsMap tasks).map Prod.snd).map (fun v => (v.year, v.month)) =
      (monthlyTrendsMap tasks).map Prod.fst := by
    rw [List.map_map]
    apply List.map_congr_left
    rintro ⟨k, v⟩ hkv
    exact ((monthlyTrendsMap_spec tasks).2.1 k v hkv).1
  have hnodup : ((analytics tasks).monthlyTrends.map (fun v => (v.year, v.month))).Nodup := by
    rw [((monthlyTrends_perm tasks).map _).nodup_iff, hkeys]
    exact (monthlyTrendsMap_spec tasks).1
  have hdistinct : (analytics tasks).monthlyTrends.Pairwise
      (fun a b => (a.year, a.month) ≠ (b.year, b.month)) := by
    have := List.pairwise_map.mp hnodup
    exact this
  refine ((monthlyTrends_sorted tasks).and hdistinct).imp ?_
  intro a b hab
  obtain ⟨hle, hne⟩ := hab
  rw [trendsOrdered_iff] at hle
  rcases hle with h | ⟨h1, h2⟩
  · exact Or.inl h
  · refine Or.inr ⟨h1, lt_of_le_of_ne h2 ?_⟩
    intro hm
    exact hne (Prod.ext h1 hm)

theorem trendStep_positive (m : List ((Int × Nat) × MonthlyTrend)) (t : Task)
    (h : ∀ k v, (k, v) ∈ m → 1 ≤ v.count) :
    ∀ k v, (k, v) ∈ trendStep m t → 1 ≤ v.count := by
  rcases hd : t.dueDate with _ | d
  · rw [trendStep_none hd]; exact h
  · rw [trendStep_some hd]
    intro k v hmem
    rcases mem_upsert hmem with h1 | ⟨_, h1 | ⟨v0, _, h1⟩⟩
    · exact h k v h1
    · rw [h1]
    · rw [h1]; exact Nat.le_add_left 1 v0.count

theorem breakdown_sums (tasks : List Task) :
    ((analytics tasks).statusBreakdown.map (fun e => e.count)).sum = tasks.length ∧
      ((analytics tasks).priorityBreakdown.map (fun e => e.count)).sum = tasks.length := by
  have hs := (tally_spec (fun t : Task => orElse t.status "todo") tasks).2.2.2
  have hp := (tally_spec (fun t : Task => orElse t.priority "normal") tasks).2.2.2
  simp only [analytics, countMaps_eq, toBreakdown, List.map_map]
  exact ⟨by simpa [grandTotal] using hs, by simpa [grandTotal] using hp⟩

/-- C14. For every task set and every entry of `monthlyTrends`, `count` is the number of
tasks whose `dueDate` falls in the (year, month) of the entry and `completed` the number of
those whose status is `completed`, so `completed ≤ count` and `1 ≤ count`. A task without
`dueDate` falls in no entry, and the counts add up to the number of tasks that have a
`dueDate`; all tasks, dated or not, are counted in `totalTasks` and in the status and
priority breakdowns, whose counts add up to the number of tasks. -/
theorem monthlyTrends_counts (tasks : List Task) :
    (∀ e ∈ (analytics tasks).monthlyTrends,
        e.count = tasks.countP (dueIn e.year e.month) ∧
        e.completed =
          tasks.countP (fun t => dueIn e.year e.month t && t.status == some "completed") ∧
        e.completed ≤ e.count ∧ 1 ≤ e.count) ∧
      (∀ t ∈ tasks, t.dueDate = none →
        ∀ e ∈ (analytics tasks).monthlyTrends, dueIn e.year e.month t = false) ∧
      ((analytics tasks).monthlyTrends.map (fun e => e.count)).sum =
        tasks.countP (fun t => t.dueDate.isSome) ∧
      (analytics tasks).totalTasks = tasks.length ∧
      ((analytics tasks).statusBreakdown.map (fun e => e.count)).sum = tasks.length ∧
      ((analytics tasks).priorityBreakdown.map (fun e => e.count)).sum = tasks.length := by
  refine ⟨fun e he => ?_, fun t _ hd e _ => dueIn_none hd _ _, ?_, rfl, breakdown_sums tasks⟩
  · have hmem := mem_monthlyTrends he
    obtain ⟨_, hcount, hcompleted⟩ := (monthlyTrendsMap_spec tasks).2.1 _ _ hmem
    have hpos : 1 ≤ e.count := by
      have := foldl_invariant trendStep (fun _ v => 1 ≤ v.count) trendStep_positive tasks []
        (fun _ _ h => by simp at h) _ _ (monthlyTrendsMap_eq tasks ▸ hmem)
      exact this
    refine ⟨hcount, hcompleted, ?_, hpos⟩
    rw [hcount, hcompleted]
    apply List.countP_mono_left
    intro t _ ht
    simp only [Bool.and_eq_true] at ht
    exact ht.1
  · have hperm := ((monthlyTrends_perm tasks).map (fun e => e.count)).sum_eq
    rw [hperm, List.map_map]
    have := (monthlyTrendsMap_spec tasks).2.2
    simpa [grandTotal] using this

/-- C16. For every database and actor, `getTaskAnalytics` aggregates the tasks `getTasks`
lists for the same actor: both fetch all tasks for an admin and the tasks created by or
assigned to the actor otherwise, the list is the populated form of the aggregated set, and
`totalTasks` equals the `count` of the list answer. -/
theorem analytics_scope (actor : Actor) (db : Db) :
    ∃ data : List PopulatedTask,
      (getTasks actor db).body =
        .taskList true (getTaskAnalytics actor db).data.totalTasks data ∧
      data = (matchedTasks actor db).map (populate db.users) ∧
      (getTaskAnalytics actor db).data = analytics (matchedTasks actor db) ∧
      (actor.role = "admin" → matchedTasks actor db = db.tasks) ∧
      (actor.role ≠ "admin" →
        matchedTasks actor db =
          db.tasks.filter (fun t => decide (t.createdBy = actor.id ∨ t.assignedTo = actor.id))) := by
  have hfilter : createdByOrAssignedTo actor.id =
      fun t => decide (t.createdBy = actor.id ∨ t.assignedTo = actor.id) := by
    funext t
    rw [Bool.eq_iff_iff]
    simp [createdByOrAssignedTo]
  by_cases hadmin : actor.role = "admin"
  · refine ⟨db.tasks.map (populate db.users), ?_, ?_, rfl, fun _ => ?_, fun h => absurd hadmin h⟩
    · simp [getTasks, getTaskAnalytics, analytics, matchedTasks, hadmin]
    · simp [matchedTasks, hadmin]
    · simp [matchedTasks, hadmin]
  · refine ⟨(db.tasks.filter (createdByOrAssignedTo actor.id)).map (populate db.users),
      ?_, ?_, rfl, fun h => absurd h hadmin, fun _ => ?_⟩
    · simp [getTasks, getTaskAnalytics, analytics, matchedTasks, hadmin]
    · simp [matchedTasks, hadmin]
    · simp [matchedTasks, hadmin, hfilter]

/-- Witness of C12: three tasks that all carry a status and a priority. -/
theorem breakdowns_exact_witness :
    ((analytics [sampleTask, sampleDone, sampleLate]).statusBreakdown.map
        (fun e => e.count)).sum = 3 ∧
      ∀ e ∈ (analytics [sampleTask, sampleDone, sampleLate]).priorityBreakdown,
        e.count = [sampleTask, sampleDone, sampleLate].countP
            (fun t => decide (t.priority = some e._id)) ∧ 0 < e.count :=
  have h := breakdowns_exact [sampleTask, sampleDone, sampleLate]
    (by
      intro t ht
      simp only [List.mem_cons, List.mem_singleton, List.not_mem_nil, or_false] at ht
      rcases ht with rfl | rfl | rfl <;> exact ⟨_, rfl, by decide⟩)
    (by
      intro t ht
      simp only [List.mem_cons, List.mem_singleton, List.not_mem_nil, or_false] at ht
      rcases ht with rfl | rfl | rfl <;> exact ⟨_, rfl, by decide⟩)
  ⟨h.1.2.2.2, h.2.2.2.1⟩

theorem validTrend_toJson (e : MonthlyTrend) : validTrend e.toJson = false := by
  have h : e.toJson.get "_id" = none := by
    simp only [MonthlyTrend.toJson, Json.get, List.lookup]
    rfl
  simp [validTrend, h, Json.truthy]

/-- C15 (code bug). The entries of `monthlyTrends` are serialised with the keys `count`,
`completed`, `year` and `month`: reading `_id` from any of them gives `undefined`, so the
filter of the Analytics page keeps none of them, for every task set. For the single task
`sampleTask` the answer holds the one entry of March 2024 and the page keeps nothing. -/
theorem monthlyTrends_lack_id :
    (∀ tasks : List Task,
        (∀ e ∈ (analytics tasks).monthlyTrends,
          (e.toJson.get "_id").isNone = true ∧ validTrend e.toJson = false) ∧
        validTrends (analytics tasks).monthlyTrends = []) ∧
      (analytics [sampleTask]).monthlyTrends =
        [{ count := 1, completed := 0, year := 2024, month := 3 }] ∧
      (validTrends (analytics [sampleTask]).monthlyTrends).length = 0 := by
  have hall : ∀ tasks : List Task, validTrends (analytics tasks).monthlyTrends = [] := by
    intro tasks
    unfold validTrends
    rw [List.filter_eq_nil_iff]
    intro j hj
    obtain ⟨e, _, rfl⟩ := List.mem_map.mp hj
    simp [validTrend_toJson]
  refine ⟨fun tasks => ⟨fun e _ => ⟨?_, validTrend_toJson e⟩, hall tasks⟩, by decide, ?_⟩
  · simp only [MonthlyTrend.toJson, Json.get, List.lookup]
    rfl
  · rw [hall]; rfl

theorem replaceDoc_idem (task : Task) (tasks : List Task) :
    replaceDoc task (replaceDoc task tasks) = replaceDoc task tasks := by
  induction tasks with
  | nil => rfl
  | cons t ts ih =>
    by_cases h : (t._id == task._id) = true
    · simp [replaceDoc, h]
    · simp [replaceDoc, h, ih]

theorem saveAndPublish_status_indep (io : Option SocketServer) (db db2 : Db) (task : Task) :
    (saveAndPublish io db2 task).status = (saveAndPublish io db task).status := by
  unfold saveAndPublish save
  by_cases hv : validate task = true
  · simp only [hv, if_true]
    rcases emit io (.taskUpdated task) with e | events <;> rfl
  · simp [hv]

/-- C17. After a successful `markTaskComplete` on a stored task, a second `markTaskComplete`
on the same id by the same actor (whatever its body) answers 200 again and leaves the
database as the first call left it: the persisted task is the original one with `status`
set to `completed`, after one call as after two. -/
theorem markTaskComplete_idempotent (io : Option SocketServer) (actor : Actor)
    (id : ObjectId) (body again : Body) (db : Db) (task : Task)
    (hfind : findById db.tasks id = some task)
    (hok : (markTaskComplete io actor id body db).status = 200) :
    (markTaskComplete io actor id again (markTaskComplete io actor id body db).db).status =
        200 ∧
      (markTaskComplete io actor id again (markTaskComplete io actor id body db).db).db =
        (markTaskComplete io actor id body db).db ∧
      findById (markTaskComplete io actor id body db).db.tasks id =
        some { task with status := some "completed" } ∧
      findById
          (markTaskComplete io actor id again
            (markTaskComplete io actor id body db).db).db.tasks id =
        some { task with status := some "completed" } := by
  by_cases hg : (task.assignedTo != actor.id && actor.role != "admin") = true
  · simp [markTaskComplete, hfind, hg] at hok
  · have h1 : markTaskComplete io actor id body db =
        saveAndPublish io db { task with status := some "completed" } := by
      simp only [markTaskComplete, hfind, hg, if_false, Bool.false_eq_true]
    rw [h1] at hok ⊢
    obtain ⟨_, hdb, _⟩ := saveAndPublish_status_ok hok
    have hfound : findById (saveAndPublish io db { task with status := some "completed" }).db.tasks
        id = some { task with status := some "completed" } := by
      rw [hdb]; exact findById_saved hfind rfl
    have h2 : markTaskComplete io actor id again
          (saveAndPublish io db { task with status := some "completed" }).db =
        saveAndPublish io (saveAndPublish io db { task with status := some "completed" }).db
          { task with status := some "completed" } := by
      simp only [markTaskComplete, hfound]
      simp only [hg, if_false, Bool.false_eq_true]
    have hok2 : (saveAndPublish io
        (saveAndPublish io db { task with status := some "completed" }).db
        { task with status := some "completed" }).status = 200 := by
      rw [saveAndPublish_status_indep io db]; exact hok
    obtain ⟨_, hdb2, _⟩ := saveAndPublish_status_ok hok2
    have hsame : (saveAndPublish io
        (saveAndPublish io db { task with status := some "completed" }).db
        { task with status := some "completed" }).db =
        (saveAndPublish io db { task with status := some "completed" }).db := by
      rw [hdb2, hdb]
      simp only [replaceDoc_idem]
    rw [h2]
    exact ⟨hok2, hsame, hfound, by rw [hsame]; exact hfound⟩

/-- Witness of C17: the assignee completes the sample task twice. -/
theorem markTaskComplete_idempotent_witness :
    (markTaskComplete (some ⟨false⟩) ⟨10, "user"⟩ 1 Body.empty
        (markTaskComplete (some ⟨false⟩) ⟨10, "user"⟩ 1 Body.empty sampleDb).db).status = 200 ∧
      (markTaskComplete (some ⟨false⟩) ⟨10, "user"⟩ 1 Body.empty
        (markTaskComplete (some ⟨false⟩) ⟨10, "user"⟩ 1 Body.empty sampleDb).db).db =
        (markTaskComplete (some ⟨false⟩) ⟨10, "user"⟩ 1 Body.empty sampleDb).db :=
  have h := markTaskComplete_idempotent (some ⟨false⟩) ⟨10, "user"⟩ 1 Body.empty Body.empty
    sampleDb sampleTask (by decide) (by decide)
  ⟨h.1, h.2.1⟩

/-! ## `createdBy` under updates -/

/-- C18 (amended). For a stored task, a successful `markTaskComplete` keeps `createdBy`, and
so does a successful `updateTask` made by the assignee of the task or with a change-set that
does not name `createdBy`; a successful `updateTask` by an admin who is not the assignee,
with a change-set that names `createdBy`, persists the submitted value. -/
theorem createdBy_under_updates (io : Option SocketServer) (actor : Actor) (id : ObjectId)
    (body : Body) (db : Db) (task : Task)
    (hfind : findById db.tasks id = some task) :
    ((markTaskComplete io actor id body db).status = 200 →
        ∃ saved, findById (markTaskComplete io actor id body db).db.tasks id = some saved ∧
          saved.createdBy = task.createdBy) ∧
      ((updateTask io actor id body db).status = 200 →
        task.assignedTo = actor.id ∨ body.createdBy = none →
        ∃ saved, findById (updateTask io actor id body db).db.tasks id = some saved ∧
          saved.createdBy = task.createdBy) ∧
      ((updateTask io actor id body db).status = 200 →
        task.assignedTo ≠ actor.id →
        ∀ c, body.createdBy = some c →
          ∃ saved, findById (updateTask io actor id body db).db.tasks id = some saved ∧
            saved.createdBy = c) := by
  have hupdate : (updateTask io actor id body db).status = 200 →
      (task.assignedTo = actor.id ∧
          updateTask io actor id body db = saveAndPublish io db (assignAllowed body task)) ∨
        (task.assignedTo ≠ actor.id ∧
          updateTask io actor id body db = saveAndPublish io db (objectAssign body task)) := by
    intro hok
    by_cases ha : task.assignedTo = actor.id
    · exact Or.inl ⟨ha, updateTask_assignee_eq io actor id body db task hfind ha hok⟩
    · by_cases hadmin : actor.role = "admin"
      · exact Or.inr ⟨ha, updateTask_admin_eq io actor id body db task hfind ha hadmin hok⟩
      · rw [updateTask_forbidden_eq io actor id body db task hfind ha hadmin] at hok
        simp at hok
  refine ⟨fun hok => ?_, fun hok hcase => ?_, fun hok hother c hc => ?_⟩
  · by_cases hg : (task.assignedTo != actor.id && actor.role != "admin") = true
    · simp [markTaskComplete, hfind, hg] at hok
    · simp only [markTaskComplete, hfind, hg, if_false, Bool.false_eq_true] at hok ⊢
      obtain ⟨_, hdb, _⟩ := saveAndPublish_status_ok hok
      exact ⟨{ task with status := some "completed" },
        by rw [hdb]; exact findById_saved hfind rfl, rfl⟩
  · rcases hupdate hok with ⟨_, heq⟩ | ⟨hother, heq⟩
    · rw [heq] at hok ⊢
      obtain ⟨_, hdb, _⟩ := saveAndPublish_status_ok hok
      refine ⟨assignAllowed body task,
        by rw [hdb]; exact findById_saved hfind (by rw [assignAllowed_eq]), ?_⟩
      rw [assignAllowed_eq]
    · rw [heq] at hok ⊢
      obtain ⟨_, hdb, _⟩ := saveAndPublish_status_ok hok
      have hnone : body.createdBy = none := hcase.resolve_left hother
      exact ⟨objectAssign body task, by rw [hdb]; exact findById_saved hfind rfl,
        by simp [objectAssign, hnone]⟩
  · rcases hupdate hok with ⟨ha, _⟩ | ⟨_, heq⟩
    · exact absurd ha hother
    · rw [heq] at hok ⊢
      obtain ⟨_, hdb, _⟩ := saveAndPublish_status_ok hok
      exact ⟨objectAssign body task, by rw [hdb]; exact findById_saved hfind rfl,
        by simp [objectAssign, hc]⟩

/-- Witness of C18 (amended): the assignee of the sample task submits a `createdBy`; the
task keeps its creator. -/
theorem createdBy_under_updates_witness :
    ∃ saved,
      findById (updateTask (some ⟨false⟩) ⟨10, "user"⟩ 1
          { Body.empty with createdBy := some 99 } sampleDb).db.tasks 1 = some saved ∧
        saved.createdBy = sampleTask.createdBy :=
  (createdBy_under_updates (some ⟨false⟩) ⟨10, "user"⟩ 1
    { Body.empty with createdBy := some 99 } sampleDb sampleTask (by decide)).2.1
    (by decide) (Or.inl (by decide))

/-- Counterexample to C18 as stated: an admin who is not the assignee submits
`createdBy: 99` for the sample task, created by user 11; the update succeeds and the
persisted task names user 99 as its creator. -/
theorem updateTask_admin_rewrites_createdBy :
    sampleTask.createdBy = 11 ∧
      (updateTask (some ⟨false⟩) ⟨20, "admin"⟩ 1 { Body.empty with createdBy := some 99 }
        sampleDb).status = 200 ∧
      (findById (updateTask (some ⟨false⟩) ⟨20, "admin"⟩ 1
          { Body.empty with createdBy := some 99 } sampleDb).db.tasks 1).map
        (fun t => t.createdBy) = some 99 := by
  decide

/-! ## Status and priority stay in their enums -/

theorem enumerated_of_validate {t : Task} (hv : validate t = true)
    (hs : t.status.isSome = true) (hp : t.priority.isSome = true) : t.Enumerated := by
  simp only [validate, Bool.and_eq_true] at hv
  obtain ⟨⟨⟨_, hpv⟩, hsv⟩, _⟩ := hv
  obtain ⟨s, hs1⟩ := Option.isSome_iff_exists.mp hs
  obtain ⟨q, hp1⟩ := Option.isSome_iff_exists.mp hp
  rw [hs1] at hsv
  rw [hp1] at hpv
  exact ⟨⟨s, by simpa [enumValid] using hsv, hs1⟩, ⟨q, by simpa [enumValid] using hpv, hp1⟩⟩

theorem Task.Enumerated.isSome {t : Task} (h : t.Enumerated) :
    t.status.isSome = true ∧ t.priority.isSome = true := by
  obtain ⟨⟨s, _, hs⟩, ⟨q, _, hq⟩⟩ := h
  simp [hs, hq]

theorem assignAllowed_isSome (body : Body) (task : Task)
    (hstatus : body.isNull .status = false) (hpriority : body.isNull .priority = false)
    (h : task.status.isSome = true ∧ task.priority.isSome = true) :
    (assignAllowed body task).status.isSome = true ∧
      (assignAllowed body task).priority.isSome = true := by
  rw [assignAllowed_eq, hstatus, hpriority]
  constructor
  · show (match body.status with
      | some v => some v
      | none => if false = true then none else task.status).isSome = true
    cases body.status <;> simp [h.1]
  · show (match body.priority with
      | some v => some v
      | none => if false = true then none else task.priority).isSome = true
    cases body.priority <;> simp [h.2]

theorem objectAssign_isSome (body : Body) (task : Task)
    (hstatus : body.isNull .status = false) (hpriority : body.isNull .priority = false)
    (h : task.status.isSome = true ∧ task.priority.isSome = true) :
    (objectAssign body task).status.isSome = true ∧
      (objectAssign body task).priority.isSome = true := by
  simp only [objectAssign, hstatus, hpriority]
  constructor
  · cases body.status <;> simp [h.1]
  · cases body.priority <;> simp [h.2]

theorem saveAndPublish_enumerated {io : Option SocketServer} {db : Db} {task : Task}
    (hdb : ∀ t ∈ db.tasks, t.Enumerated)
    (hsome : task.status.isSome = true ∧ task.priority.isSome = true) :
    ∀ t ∈ (saveAndPublish io db task).db.tasks, t.Enumerated := by
  unfold saveAndPublish save
  by_cases hv : validate task = true
  · have hnew : ∀ t ∈ replaceDoc task db.tasks, t.Enumerated := by
      intro t ht
      rcases mem_replaceDoc ht with h | h
      · exact h ▸ enumerated_of_validate hv hsome.1 hsome.2
      · exact hdb t h
    simp only [hv, if_true]
    rcases emit io (.taskUpdated task) with e | events <;> exact hnew
  · simpa [hv] using hdb

theorem updateTask_enumerated (io : Option SocketServer) (actor : Actor) (id : ObjectId)
    (body : Body) (db : Db)
    (hstatus : body.isNull .status = false) (hpriority : body.isNull .priority = false)
    (hdb : ∀ t ∈ db.tasks, t.Enumerated) :
    ∀ t ∈ (updateTask io actor id body db).db.tasks, t.Enumerated := by
  rcases hfind : findById db.tasks id with _ | task
  · simpa [updateTask, hfind] using hdb
  · have hsome := (hdb task (findById_mem hfind)).isSome
    simp only [updateTask, hfind]
    split
    · split
      · exact hdb
      · exact saveAndPublish_enumerated hdb
          (assignAllowed_isSome body task hstatus hpriority hsome)
    · split
      · split
        · exact hdb
        · exact saveAndPublish_enumerated hdb
            (objectAssign_isSome body task hstatus hpriority hsome)
      · exact hdb

theorem markTaskComplete_enumerated (io : Option SocketServer) (actor : Actor)
    (id : ObjectId) (body : Body) (db : Db) (hdb : ∀ t ∈ db.tasks, t.Enumerated) :
    ∀ t ∈ (markTaskComplete io actor id body db).db.tasks, t.Enumerated := by
  rcases hfind : findById db.tasks id with _ | task
  · simpa [markTaskComplete, hfind] using hdb
  · have hsome := (hdb task (findById_mem hfind)).isSome
    simp only [markTaskComplete, hfind]
    split
    · exact hdb
    · exact saveAndPublish_enumerated hdb ⟨rfl, hsome.2⟩

theorem deleteTask_enumerated (io : Option SocketServer) (actor : Actor) (id : ObjectId)
    (db : Db) (hdb : ∀ t ∈ db.tasks, t.Enumerated) :
    ∀ t ∈ (deleteTask io actor id db).db.tasks, t.Enumerated := by
  have hrem : ∀ t ∈ (findByIdAndDelete db id).tasks, t.Enumerated :=
    fun t ht => hdb t (mem_removeDoc ht)
  unfold deleteTask
  split
  · exact hdb
  · split
    · exact hdb
    · simp only
      split <;> exact hrem

theorem createTask_enumerated (io : Option SocketServer) (newId : ObjectId) (actor : Actor)
    (body : Body) (db : Db) (hpriority : body.isNull .priority = false)
    (hdb : ∀ t ∈ db.tasks, t.Enumerated) :
    ∀ t ∈ (createTask io newId actor body db).db.tasks, t.Enumerated := by
  rcases createTask_cases io newId actor body db with ⟨h, _, _⟩ | ⟨task, db1, hc, h, _⟩
  · rw [h]; exact hdb
  · obtain ⟨_, _, _, _, htask, hv, _, hdb1⟩ := create_ok hc
    rw [h, hdb1]
    intro t ht
    simp only [List.mem_append, List.mem_singleton] at ht
    rcases ht with ht | ht
    · exact hdb t ht
    · rw [ht]
      refine enumerated_of_validate hv (by rw [htask]; rfl) ?_
      rw [htask, hpriority]
      cases body.priority <;> rfl

theorem enumeratedIfPresent_of_validate {t : Task} (hv : validate t = true) :
    t.EnumeratedIfPresent := by
  simp only [validate, Bool.and_eq_true] at hv
  obtain ⟨⟨⟨_, hpv⟩, hsv⟩, _⟩ := hv
  constructor
  · intro s hs
    rw [hs] at hsv
    simpa [enumValid] using hsv
  · intro q hq
    rw [hq] at hpv
    simpa [enumValid] using hpv

theorem reachable_valid {db : Db} (h : Reachable db) : db.Valid := by
  induction h with
  | init users => intro t ht; simp at ht
  | afterCreate io newId actor body _ ih => exact createTask_valid io newId actor body _ ih
  | afterUpdate io actor id body _ ih => exact updateTask_valid io actor id body _ ih
  | afterDelete io actor id _ ih => exact deleteTask_valid io actor id _ ih
  | afterComplete io actor id body _ ih => exact markTaskComplete_valid io actor id body _ ih

theorem validate_bad_status {t : Task} {s : String} (hs : t.status = some s)
    (hbad : s ∉ statusEnum) : validate t = false := by
  simp [validate, hs, enumValid, hbad]

theorem validate_bad_priority {t : Task} {p : String} (hp : t.priority = some p)
    (hbad : p ∉ priorityEnum) : validate t = false := by
  simp [validate, hp, enumValid, hbad]

theorem saveAndPublish_invalid {io : Option SocketServer} {db : Db} {task : Task}
    (hv : validate task = false) :
    (saveAndPublish io db task).status = 500 ∧ (saveAndPublish io db task).db = db := by
  simp [saveAndPublish, save, hv]

theorem reachable_all_enumerated {db : Db} (h : ReachableWithoutNull db) :
    ∀ t ∈ db.tasks, t.Enumerated := by
  induction h with
  | init users => intro t ht; simp at ht
  | afterCreate io newId actor body hp _ ih =>
    exact createTask_enumerated io newId actor body _ hp ih
  | afterUpdate io actor id body hs hp _ ih =>
    exact updateTask_enumerated io actor id body _ hs hp ih
  | afterDelete io actor id _ ih => exact deleteTask_enumerated io actor id _ ih
  | afterComplete io actor id body _ ih =>
    exact markTaskComplete_enumerated io actor id body _ ih

theorem createTask_bad_priority (io : Option SocketServer) (newId : ObjectId) (actor : Actor)
    (body : Body) (db : Db) (p : String) (hp : body.priority = some p)
    (hbad : p ∉ priorityEnum) :
    (createTask io newId actor body db).status = 500 ∧
      (createTask io newId actor body db).db = db := by
  have hc : create db newId body.title body.description body.priority
      (body.isNull .priority) body.dueDate body.assignedTo actor.id = .error .validation := by
    unfold create
    rcases body.title with _ | ttl
    · rfl
    · rcases body.assignedTo with _ | a
      · rfl
      · simp only [hp]
        rw [if_neg]
        rw [validate_bad_priority rfl hbad]
        simp
  simp [createTask, hc]

theorem updateTask_bad_enum (io : Option SocketServer) (actor : Actor) (id : ObjectId)
    (body : Body) (db : Db)
    (hbad : (∃ s, body.status = some s ∧ s ∉ statusEnum) ∨
      (∃ p, body.priority = some p ∧ p ∉ priorityEnum)) :
    (updateTask io actor id body db).status ≠ 200 ∧
      (updateTask io actor id body db).db = db := by
  rcases hfind : findById db.tasks id with _ | task
  · simp [updateTask, hfind]
  · have h1 : validate (assignAllowed body task) = false := by
      rw [assignAllowed_eq]
      rcases hbad with ⟨s, hs, hns⟩ | ⟨q, hq, hnq⟩
      · exact validate_bad_status (by simp [hs]) hns
      · exact validate_bad_priority (by simp [hq]) hnq
    have h2 : validate (objectAssign body task) = false := by
      rcases hbad with ⟨s, hs, hns⟩ | ⟨q, hq, hnq⟩
      · exact validate_bad_status (by simp [objectAssign, hs]) hns
      · exact validate_bad_priority (by simp [objectAssign, hq]) hnq
    simp only [updateTask, hfind]
    split
    · split
      · exact ⟨by simp [saveRejected], rfl⟩
      · obtain ⟨h, hdb⟩ := @saveAndPublish_invalid io db _ h1
        exact ⟨by rw [h]; decide, hdb⟩
    · split
      · split
        · exact ⟨by simp [saveRejected], rfl⟩
        · obtain ⟨h, hdb⟩ := @saveAndPublish_invalid io db _ h2
          exact ⟨by rw [h]; decide, hdb⟩
      · exact ⟨by simp, rfl⟩

/-- C19 (amended). In every database reachable from an empty collection through
`createTask`, `updateTask`, `deleteTask` and `markTaskComplete` calls, every stored task
has a status that is absent or one of `todo`, `in-progress`, `completed`, `cancelled` and a
priority that is absent or one of `low`, `medium`, `high`, `urgent`; when no request body
carried `null` for `status` or `priority`, both are present. A `createTask` whose body names
a priority outside the enum answers 500 and stores nothing, and an `updateTask` whose body
names a status or a priority outside its enum does not answer 200 and leaves the database as
it was. -/
theorem reachable_enums (db : Db) (hreach : Reachable db) :
    (∀ t ∈ db.tasks,
        (∀ s, t.status = some s → s ∈ statusEnum) ∧
          (∀ p, t.priority = some p → p ∈ priorityEnum)) ∧
      (ReachableWithoutNull db →
        ∀ t ∈ db.tasks,
          (∃ s ∈ statusEnum, t.status = some s) ∧
            (∃ p ∈ priorityEnum, t.priority = some p)) ∧
      (∀ (io : Option SocketServer) (newId : ObjectId) (actor : Actor) (body : Body)
          (p : String), body.priority = some p → p ∉ priorityEnum →
        (createTask io newId actor body db).status = 500 ∧
          (createTask io newId actor body db).db = db) ∧
      (∀ (io : Option SocketServer) (actor : Actor) (id : ObjectId) (body : Body),
        (∃ s, body.status = some s ∧ s ∉ statusEnum) ∨
            (∃ p, body.priority = some p ∧ p ∉ priorityEnum) →
        (updateTask io actor id body db).status ≠ 200 ∧
          (updateTask io actor id body db).db = db) :=
  ⟨fun t ht => enumeratedIfPresent_of_validate (reachable_valid hreach t ht),
   fun hclean => reachable_all_enumerated hclean,
   fun io newId actor body p hp hbad => createTask_bad_priority io newId actor body db p hp hbad,
   fun io actor id body hbad => updateTask_bad_enum io actor id body db hbad⟩

/-- Witness of C19 (amended): after user 11 has created a task in an empty collection and
its assignee has marked it in progress, with no `null` in either body, the task stored
under id 2 has its status and priority in the enums. -/
theorem reachable_enums_witness :
    ∃ t,
      findById
          (updateTask none ⟨10, "user"⟩ 2 { Body.empty with status := some "in-progress" }
            (createTask none 2 ⟨11, "user"⟩ sampleCreate
              { tasks := [], users := [] }).db).db.tasks 2 = some t ∧
        (∃ s ∈ statusEnum, t.status = some s) ∧ (∃ p ∈ priorityEnum, t.priority = some p) :=
  have hfind : findById
      (updateTask none ⟨10, "user"⟩ 2 { Body.empty with status := some "in-progress" }
        (createTask none 2 ⟨11, "user"⟩ sampleCreate
          { tasks := [], users := [] }).db).db.tasks 2 =
      some { _id := 2, title := "Plan sprint", description := none, assignedTo := 10,
             createdBy := 11, priority := some "medium", status := some "in-progress",
             dueDate := some ⟨2024, 5, 0⟩, completedAt := none, tags := [] } := by decide
  ⟨_, hfind,
    (reachable_enums
      (updateTask none ⟨10, "user"⟩ 2 { Body.empty with status := some "in-progress" }
        (createTask none 2 ⟨11, "user"⟩ sampleCreate { tasks := [], users := [] }).db).db
      (Reachable.afterUpdate none ⟨10, "user"⟩ 2
        { Body.empty with status := some "in-progress" }
        (Reachable.afterCreate none 2 ⟨11, "user"⟩ sampleCreate (Reachable.init [])))).2.1
      (ReachableWithoutNull.afterUpdate none ⟨10, "user"⟩ 2
        { Body.empty with status := some "in-progress" } (by decide) (by decide)
        (ReachableWithoutNull.afterCreate none 2 ⟨11, "user"⟩ sampleCreate (by decide)
          (ReachableWithoutNull.init [])))
      _ (findById_mem hfind)⟩

/-- Counterexample to C19 as stated: user 11 creates a task in an empty collection (201);
its assignee, user 10, sends `{ status: null }`, which passes the test `!== undefined` of
the narrowed branch, and an admin sends `{ priority: null }`, which `Object.assign` copies.
Both updates answer 200, and the stored task is left without a status and without a
priority. -/
theorem updateTask_null_status_stored :
    Reachable
        (updateTask none ⟨20, "admin"⟩ 2 nullPriority
          (updateTask none ⟨10, "user"⟩ 2 nullStatus
            (createTask none 2 ⟨11, "user"⟩ sampleCreate
              { tasks := [], users := [] }).db).db).db ∧
      (createTask none 2 ⟨11, "user"⟩ sampleCreate { tasks := [], users := [] }).status = 201 ∧
      (updateTask none ⟨10, "user"⟩ 2 nullStatus
        (createTask none 2 ⟨11, "user"⟩ sampleCreate
          { tasks := [], users := [] }).db).status = 200 ∧
      (updateTask none ⟨20, "admin"⟩ 2 nullPriority
        (updateTask none ⟨10, "user"⟩ 2 nullStatus
          (createTask none 2 ⟨11, "user"⟩ sampleCreate
            { tasks := [], users := [] }).db).db).status = 200 ∧
      (findById
          (updateTask none ⟨20, "admin"⟩ 2 nullPriority
            (updateTask none ⟨10, "user"⟩ 2 nullStatus
              (createTask none 2 ⟨11, "user"⟩ sampleCreate
                { tasks := [], users := [] }).db).db).db.tasks 2).map
        (fun t => (t.status, t.priority)) = some (none, none) :=
  ⟨Reachable.afterUpdate none ⟨20, "admin"⟩ 2 nullPriority
      (Reachable.afterUpdate none ⟨10, "user"⟩ 2 nullStatus
        (Reachable.afterCreate none 2 ⟨11, "user"⟩ sampleCreate (Reachable.init []))),
    by decide, by decide, by decide, by decide⟩

/-! ## Published events -/

theorem saveAndPublish_emitted (io : Option SocketServer) (db : Db) (task : Task)
    (hok : (saveAndPublish io db task).status = 200) :
    (saveAndPublish io db task).emitted =
      match io with
      | none => []
      | some _ => [.taskUpdated task] := by
  unfold saveAndPublish save emit at hok ⊢
  by_cases hv : validate task = true
  · rcases io with _ | s
    · simp [hv]
    · by_cases hr : s.raises = true
      · simp [hv, hr] at hok
      · simp [hv, hr]
  · simp [hv] at hok

theorem emitted_without_socket :
    (∀ (newId : ObjectId) (actor : Actor) (body : Body) (db : Db),
        (createTask none newId actor body db).emitted = []) ∧
      (∀ (actor : Actor) (id : ObjectId) (body : Body) (db : Db),
        (updateTask none actor id body db).emitted = []) ∧
      (∀ (actor : Actor) (id : ObjectId) (db : Db),
        (deleteTask none actor id db).emitted = []) ∧
      (∀ (actor : Actor) (id : ObjectId) (body : Body) (db : Db),
        (markTaskComplete none actor id body db).emitted = []) := by
  have hsave : ∀ (db : Db) (task : Task), (saveAndPublish none db task).emitted = [] := by
    intro db task
    unfold saveAndPublish save emit
    by_cases hv : validate task = true <;> simp [hv]
  refine ⟨fun newId actor body db => ?_, fun actor id body db => ?_, fun actor id db => ?_,
    fun actor id body db => ?_⟩
  · unfold createTask emit
    rcases create db newId body.title body.description body.priority
      (body.isNull .priority) body.dueDate body.assignedTo actor.id with e | ⟨task, db1⟩ <;> rfl
  · unfold updateTask
    split
    · rfl
    · split
      · split
        · rfl
        · exact hsave _ _
      · split
        · split
          · rfl
          · exact hsave _ _
        · rfl
  · unfold deleteTask emit
    split
    · rfl
    · split <;> rfl
  · unfold markTaskComplete
    split
    · rfl
    · split
      · rfl
      · exact hsave _ _

/-- C20 (code bug). In the state the controller starts in, where `setSocketIO` has not been
called and `io` is undefined, no handler hands an event to the socket server, whatever the
request; the four sample mutations succeed (201 for the create, 200 for the update, the
deletion and the completion) and publish nothing. -/
theorem mutations_publish_nothing_unregistered :
    ((∀ (newId : ObjectId) (actor : Actor) (body : Body) (db : Db),
        (createTask none newId actor body db).emitted = []) ∧
      (∀ (actor : Actor) (id : ObjectId) (body : Body) (db : Db),
        (updateTask none actor id body db).emitted = []) ∧
      (∀ (actor : Actor) (id : ObjectId) (db : Db),
        (deleteTask none actor id db).emitted = []) ∧
      (∀ (actor : Actor) (id : ObjectId) (body : Body) (db : Db),
        (markTaskComplete none actor id body db).emitted = [])) ∧
    ((createTask none 2 ⟨11, "user"⟩ sampleCreate sampleDb).status = 201 ∧
      (createTask none 2 ⟨11, "user"⟩ sampleCreate sampleDb).emitted = []) ∧
    ((updateTask none ⟨10, "user"⟩ 1 { Body.empty with title := some "T" } sampleDb).status =
        200 ∧
      (updateTask none ⟨10, "user"⟩ 1 { Body.empty with title := some "T" } sampleDb).emitted =
        []) ∧
    ((deleteTask none ⟨11, "user"⟩ 1 sampleDb).status = 200 ∧
      (deleteTask none ⟨11, "user"⟩ 1 sampleDb).emitted = []) ∧
    ((markTaskComplete none ⟨10, "user"⟩ 1 Body.empty sampleDb).status = 200 ∧
      (markTaskComplete none ⟨10, "user"⟩ 1 Body.empty sampleDb).emitted = []) :=
  ⟨emitted_without_socket, by decide, by decide, by decide, by decide⟩

/-- With a socket server registered, every mutation that answers 201 or 200 has handed it
exactly one event: `taskAdded` with the created task, `taskUpdated` with the saved task, or
`taskDeleted` with the id of the deleted task. -/
theorem emitted_with_socket (server : SocketServer) :
    (∀ (newId : ObjectId) (actor : Actor) (body : Body) (db : Db),
        (createTask (some server) newId actor body db).status = 201 →
        ∃ task, (createTask (some server) newId actor body db).body = .taskData true task ∧
          (createTask (some server) newId actor body db).emitted = [.taskAdded task]) ∧
      (∀ (actor : Actor) (id : ObjectId) (body : Body) (db : Db),
        (updateTask (some server) actor id body db).status = 200 →
        ∃ task, (updateTask (some server) actor id body db).body = .taskData true task ∧
          (updateTask (some server) actor id body db).emitted = [.taskUpdated task]) ∧
      (∀ (actor : Actor) (id : ObjectId) (db : Db),
        (deleteTask (some server) actor id db).status = 200 →
        (deleteTask (some server) actor id db).emitted = [.taskDeleted id]) ∧
      (∀ (actor : Actor) (id : ObjectId) (body : Body) (db : Db),
        (markTaskComplete (some server) actor id body db).status = 200 →
        ∃ task, (markTaskComplete (some server) actor id body db).body = .taskData true task ∧
          (markTaskComplete (some server) actor id body db).emitted = [.taskUpdated task]) := by
  have hsave : ∀ (db : Db) (task : Task),
      (saveAndPublish (some server) db task).status = 200 →
      ∃ t, (saveAndPublish (some server) db task).body = .taskData true t ∧
        (saveAndPublish (some server) db task).emitted = [.taskUpdated t] := by
    intro db task hok
    exact ⟨task, (saveAndPublish_status_ok hok).2.2,
      saveAndPublish_emitted (some server) db task hok⟩
  refine ⟨fun newId actor body db hok => ?_, fun actor id body db hok => ?_,
    fun actor id db hok => ?_, fun actor id body db hok => ?_⟩
  · rcases hc : create db newId body.title body.description body.priority
      (body.isNull .priority) body.dueDate body.assignedTo actor.id with e | ⟨task, db1⟩
    · simp [createTask, hc] at hok
    · by_cases hr : server.raises = true
      · simp [createTask, hc, emit, hr] at hok
      · exact ⟨task, by simp [createTask, hc, emit, hr], by simp [createTask, hc, emit, hr]⟩
  · rcases updateTask_shape actor id body db with ⟨_, saved, _, _, _, h⟩ | ⟨hne, _, _, h⟩
    · rw [h] at hok ⊢
      exact hsave _ _ hok
    · rw [h] at hok
      exact absurd hok hne
  · rcases hfind : findById db.tasks id with _ | task
    · simp [deleteTask, hfind] at hok
    · have hid := findById_id hfind
      by_cases hg : (task.createdBy != actor.id && actor.role != "admin") = true
      · simp [deleteTask, hfind, hg] at hok
      · by_cases hr : server.raises = true
        · simp [deleteTask, hfind, hg, emit, hr] at hok
        · simp [deleteTask, hfind, hg, emit, hr, hid]
  · unfold markTaskComplete at hok ⊢
    split at hok
    · simp at hok
    · split at hok
      · simp at hok
      · rename_i h1 h2
        simp only [h1, h2, if_false]
        exact hsave _ _ hok

/-! ## A raising `emit` -/

theorem saveAndPublish_raising {server : SocketServer} (hraises : server.raises = true)
    (db : Db) (task : Task) (hok : (saveAndPublish none db task).status = 200) :
    saveAndPublish (some server) db task =
      { status := 500, body := .errorMessage .emit, db := (saveAndPublish none db task).db,
        emitted := [] } := by
  unfold saveAndPublish save emit at hok ⊢
  by_cases hv : validate task = true
  · simp [hv, hraises]
  · simp [hv] at hok

/-- C21 (amended). When the `emit` of the registered socket server raises, every
`createTask`, `updateTask`, `deleteTask` or `markTaskComplete` call whose store write
succeeds (the same call answers 201 or 200 when no event is emitted) answers 500 with the
message of the error and publishes no event, and the database is the one the successful
write leaves: the write is retained. -/
theorem raising_emit_answers_500 (server : SocketServer) (hraises : server.raises = true)
    (newId : ObjectId) (actor : Actor) (id : ObjectId) (body : Body) (db : Db) :
    ((createTask none newId actor body db).status = 201 →
        createTask (some server) newId actor body db =
          { status := 500, body := .errorMessage .emit,
            db := (createTask none newId actor body db).db, emitted := [] }) ∧
      ((updateTask none actor id body db).status = 200 →
        updateTask (some server) actor id body db =
          { status := 500, body := .errorMessage .emit,
            db := (updateTask none actor id body db).db, emitted := [] }) ∧
      ((deleteTask none actor id db).status = 200 →
        deleteTask (some server) actor id db =
          { status := 500, body := .errorMessage .emit,
            db := (deleteTask none actor id db).db, emitted := [] }) ∧
      ((markTaskComplete none actor id body db).status = 200 →
        markTaskComplete (some server) actor id body db =
          { status := 500, body := .errorMessage .emit,
            db := (markTaskComplete none actor id body db).db, emitted := [] }) := by
  refine ⟨fun hok => ?_, fun hok => ?_, fun hok => ?_, fun hok => ?_⟩
  · rcases hc : create db newId body.title body.description body.priority
      (body.isNull .priority) body.dueDate body.assignedTo actor.id with e | ⟨task, db1⟩
    · simp [createTask, hc] at hok
    · simp [createTask, hc, emit, hraises]
  · rcases updateTask_shape actor id body db with ⟨_, saved, _, _, _, h⟩ | ⟨hne, _, _, _⟩
    · rw [h none] at hok ⊢
      rw [h (some server)]
      exact saveAndPublish_raising hraises db _ hok
    · exact absurd hok hne
  · rcases hfind : findById db.tasks id with _ | task
    · simp [deleteTask, hfind] at hok
    · by_cases hg : (task.createdBy != actor.id && actor.role != "admin") = true
      · simp [deleteTask, hfind, hg] at hok
      · simp [deleteTask, hfind, hg, emit, hraises]
  · rcases hfind : findById db.tasks id with _ | task
    · simp [markTaskComplete, hfind] at hok
    · by_cases hg : (task.assignedTo != actor.id && actor.role != "admin") = true
      · simp [markTaskComplete, hfind, hg] at hok
      · simp only [markTaskComplete, hfind, hg, if_false, Bool.false_eq_true] at hok ⊢
        exact saveAndPublish_raising hraises db _ hok

/-- Witness of C21 (amended): user 11 creates a task while the socket server raises. -/
theorem raising_emit_answers_500_witness :
    createTask (some ⟨true⟩) 2 ⟨11, "user"⟩ sampleCreate sampleDb =
      { status := 500, body := .errorMessage .emit,
        db := (createTask none 2 ⟨11, "user"⟩ sampleCreate sampleDb).db, emitted := [] } :=
  (raising_emit_answers_500 ⟨true⟩ rfl 2 ⟨11, "user"⟩ 1 sampleCreate sampleDb).1 (by decide)

/-- Counterexample to C21 as stated: the create request of user 11 is written to the
store (it answers 201 when nothing is emitted, and the task is found afterwards), the
`emit` raises, and the answer is 500, not 201. -/
theorem createTask_raising_emit_not_successful :
    (createTask none 2 ⟨11, "user"⟩ sampleCreate sampleDb).status = 201 ∧
      (createTask (some ⟨true⟩) 2 ⟨11, "user"⟩ sampleCreate sampleDb).status = 500 ∧
      (createTask (some ⟨true⟩) 2 ⟨11, "user"⟩ sampleCreate sampleDb).status ≠ 201 ∧
      (findById (createTask (some ⟨true⟩) 2 ⟨11, "user"⟩ sampleCreate sampleDb).db.tasks
        2).isSome = true := by
  decide

/-! ## Create requests -/

/-- C22 (amended). For every create request that lacks `title`, `dueDate` or `assignedTo`,
`createTask` stores no task, emits no event and answers 500 carrying the message of the
validation error. -/
theorem createTask_missing_required (io : Option SocketServer) (newId : ObjectId)
    (actor : Actor) (body : Body) (db : Db)
    (hmissing : body.title = none ∨ body.dueDate = none ∨ body.assignedTo = none) :
    createTask io newId actor body db =
      { status := 500, body := .errorMessage .validation, db := db, emitted := [] } := by
  have hc : create db newId body.title body.description body.priority
      (body.isNull .priority) body.dueDate body.assignedTo actor.id = .error .validation := by
    unfold create
    rcases ht : body.title with _ | ttl
    · rfl
    · rcases ha : body.assignedTo with _ | a
      · rfl
      · have hd : body.dueDate = none := by
          rcases hmissing with h | h | h
          · rw [ht] at h; exact absurd h (by simp)
          · exact h
          · rw [ha] at h; exact absurd h (by simp)
        simp [hd, validate]
  simp [createTask, hc]

/-- Witness of C22 (amended): a create request without a due date. -/
theorem createTask_missing_required_witness :
    createTask (some ⟨false⟩) 2 ⟨11, "user"⟩ { sampleCreate with dueDate := none } sampleDb =
      { status := 500, body := .errorMessage .validation, db := sampleDb, emitted := [] } :=
  createTask_missing_required (some ⟨false⟩) 2 ⟨11, "user"⟩
    { sampleCreate with dueDate := none } sampleDb (Or.inr (Or.inl rfl))

/-- Counterexample to C22 as stated: a create request without a title is answered with
status 500, not 400. -/
theorem createTask_missing_title_is_500 :
    ({ sampleCreate with title := none } : Body).title = none ∧
      (createTask (some ⟨false⟩) 2 ⟨11, "user"⟩ { sampleCreate with title := none }
        sampleDb).status = 500 ∧
      (createTask (some ⟨false⟩) 2 ⟨11, "user"⟩ { sampleCreate with title := none }
        sampleDb).status ≠ 400 := by
  decide

/-- C24 (code bug). `createTask` does not read `tags` from the request body: the task of
every 201 answer has an empty `tags`. For the sample request with tags `a`, `b` the call
answers 201 and the stored task has no tags. -/
theorem createTask_drops_tags :
    (∀ (io : Option SocketServer) (newId : ObjectId) (actor : Actor) (body : Body) (db : Db)
        (task : Task),
        (createTask io newId actor body db).body = .taskData true task → task.tags = []) ∧
      ({ sampleCreate with tags := some ["a", "b"] } : Body).tags = some ["a", "b"] ∧
      (createTask (some ⟨false⟩) 2 ⟨11, "user"⟩ { sampleCreate with tags := some ["a", "b"] }
        sampleDb).status = 201 ∧
      (findById (createTask (some ⟨false⟩) 2 ⟨11, "user"⟩
          { sampleCreate with tags := some ["a", "b"] } sampleDb).db.tasks 2).map
        (fun t => t.tags) = some [] := by
  refine ⟨fun io newId actor body db task hbody => ?_, by decide, by decide, by decide⟩
  rcases createTask_cases io newId actor body db with ⟨_, _, e, he⟩ | ⟨t, db1, hc, _, hr⟩
  · rw [he] at hbody; cases hbody
  · obtain ⟨_, _, _, _, htask, _, _, _⟩ := create_ok hc
    rcases hr with ⟨_, hb⟩ | ⟨_, e, he⟩
    · rw [hb] at hbody
      cases hbody
      rw [htask]
    · rw [he] at hbody; cases hbody

/-- C23 (code bug). The body of a 200 answer of `markTaskComplete` is `{ success, data }`:
it has no `message` property, for every request; the completion of the sample task by its
assignee is such an answer. -/
theorem markTaskComplete_answer_lacks_message :
    (∀ (io : Option SocketServer) (actor : Actor) (id : ObjectId) (body : Body) (db : Db),
        (markTaskComplete io actor id body db).status = 200 →
        ∃ task, (markTaskComplete io actor id body db).body = .taskData true task ∧
          (markTaskComplete io actor id body db).body.hasMessage = false) ∧
      (markTaskComplete (some ⟨false⟩) ⟨10, "user"⟩ 1 Body.empty sampleDb).status = 200 ∧
      (markTaskComplete (some ⟨false⟩) ⟨10, "user"⟩ 1 Body.empty sampleDb).body.hasMessage =
        false := by
  refine ⟨fun io actor id body db hok => ?_, by decide, by decide⟩
  rcases hfind : findById db.tasks id with _ | task
  · simp [markTaskComplete, hfind] at hok
  · by_cases hg : (task.assignedTo != actor.id && actor.role != "admin") = true
    · simp [markTaskComplete, hfind, hg] at hok
    · simp only [markTaskComplete, hfind, hg, if_false, Bool.false_eq_true] at hok ⊢
      obtain ⟨_, _, hbody⟩ := saveAndPublish_status_ok hok
      exact ⟨_, hbody, by rw [hbody]; rfl⟩

/-! ## Deletion -/

theorem removeDoc_eq_filter (id : ObjectId) (tasks : List Task)
    (hunique : (tasks.map (fun t => t._id)).Nodup) :
    removeDoc id tasks = tasks.filter (fun t => t._id != id) := by
  induction tasks with
  | nil => rfl
  | cons t ts ih =>
    simp only [List.map_cons, List.nodup_cons, List.mem_map, not_exists, not_and] at hunique
    unfold removeDoc
    by_cases h : t._id = id
    · have hrest : ts.filter (fun u => u._id != id) = ts := by
        rw [List.filter_eq_self]
        intro u hu
        have := hunique.1 u hu
        simp only [bne_iff_ne, ne_eq]
        intro hid
        exact this (hid.trans h.symm)
      simp [h, hrest]
    · simp [h, ih hunique.2]

theorem findById_filter_ne (id other : ObjectId) (tasks : List Task) (h : other ≠ id) :
    findById (tasks.filter (fun t => t._id != id)) other = findById tasks other := by
  induction tasks with
  | nil => rfl
  | cons t ts ih =>
    simp only [findById] at ih ⊢
    by_cases ht : t._id = id
    · have hb1 : (t._id != id) = false := by simp [ht]
      have hb2 : (t._id == other) = false := by
        simp only [beq_eq_false_iff_ne, ne_eq]
        exact fun h2 => h (h2.symm.trans ht)
      rw [List.filter_cons, List.find?_cons, hb1, hb2]
      simpa using ih
    · have hb1 : (t._id != id) = true := by simp [ht]
      rw [List.filter_cons, hb1]
      simp only [if_true, List.find?_cons]
      rw [ih]

theorem findById_filter_self (id : ObjectId) (tasks : List Task) :
    findById (tasks.filter (fun t => t._id != id)) id = none := by
  simp only [findById, List.find?_eq_none, List.mem_filter]
  rintro t ⟨_, ht⟩
  simpa using ht

theorem deleteTask_ok_db (io : Option SocketServer) (actor : Actor) (id : ObjectId) (db : Db)
    (hok : (deleteTask io actor id db).status = 200) :
    (deleteTask io actor id db).db = findByIdAndDelete db id := by
  rcases hfind : findById db.tasks id with _ | task
  · simp [deleteTask, hfind] at hok
  · by_cases hg : (task.createdBy != actor.id && actor.role != "admin") = true
    · simp [deleteTask, hfind, hg] at hok
    · simp only [deleteTask, hfind, hg, if_false, Bool.false_eq_true]
      rcases emit io (.taskDeleted task._id) with e | events <;> rfl

/-- C25. For every database whose tasks have pairwise distinct `_id` (the unique index of
the collection) and every `deleteTask` of an id that answers 200: the resulting collection
is the old one without the task of that id, in the same order, and the users are
untouched; no task with that id is left, so a following `updateTask`, `deleteTask` or
`markTaskComplete` on the id answers 404 and no list of any actor has an entry with it;
every other id resolves to the same task as before. -/
theorem deleteTask_removes (io : Option SocketServer) (actor : Actor) (id : ObjectId) (db : Db)
    (hunique : (db.tasks.map (fun t => t._id)).Nodup)
    (hok : (deleteTask io actor id db).status = 200) :
    (deleteTask io actor id db).db.tasks = db.tasks.filter (fun t => t._id != id) ∧
      (deleteTask io actor id db).db.users = db.users ∧
      findById (deleteTask io actor id db).db.tasks id = none ∧
      (∀ t ∈ (deleteTask io actor id db).db.tasks, t._id ≠ id) ∧
      (∀ (io2 : Option SocketServer) (actor2 : Actor) (body2 : Body),
        (updateTask io2 actor2 id body2 (deleteTask io actor id db).db).status = 404 ∧
        (deleteTask io2 actor2 id (deleteTask io actor id db).db).status = 404 ∧
        (markTaskComplete io2 actor2 id body2 (deleteTask io actor id db).db).status = 404) ∧
      (∀ (actor2 : Actor) (success : Bool) (count : Nat) (data : List PopulatedTask),
        (getTasks actor2 (deleteTask io actor id db).db).body = .taskList success count data →
        ∀ entry ∈ data, entry._id ≠ id) ∧
      (∀ other, other ≠ id →
        findById (deleteTask io actor id db).db.tasks other = findById db.tasks other) := by
  have hdb := deleteTask_ok_db io actor id db hok
  have htasks : (deleteTask io actor id db).db.tasks =
      db.tasks.filter (fun t => t._id != id) := by
    rw [hdb]
    exact removeDoc_eq_filter id db.tasks hunique
  have hnone : findById (deleteTask io actor id db).db.tasks id = none := by
    rw [htasks]; exact findById_filter_self id db.tasks
  have hmem : ∀ t ∈ (deleteTask io actor id db).db.tasks, t._id ≠ id := by
    intro t ht
    rw [htasks, List.mem_filter] at ht
    simpa using ht.2
  refine ⟨htasks, by rw [hdb]; rfl, hnone, hmem, fun io2 actor2 body2 => ?_,
    fun actor2 success count data hbody entry hentry => ?_, fun other hother => ?_⟩
  · generalize (deleteTask io actor id db).db = db2 at hnone
    simp [updateTask, deleteTask, markTaskComplete, hnone]
  · rw [getTasks_data] at hbody
    simp only [ResBody.taskList.injEq] at hbody
    obtain ⟨_, _, hdata⟩ := hbody
    rw [← hdata] at hentry
    split at hentry
    · obtain ⟨t, ht, rfl⟩ := List.mem_map.mp hentry
      exact hmem t ht
    · obtain ⟨t, ht, rfl⟩ := List.mem_map.mp hentry
      exact hmem t (List.mem_filter.mp ht).1
  · rw [htasks]; exact findById_filter_ne id other db.tasks hother

/-- Witness of C25: the creator deletes the sample task from a database of two tasks. -/
theorem deleteTask_removes_witness :
    (deleteTask (some ⟨false⟩) ⟨11, "user"⟩ 1
        { tasks := [sampleTask, sampleDone], users := [] }).db.tasks = [sampleDone] ∧
      findById (deleteTask (some ⟨false⟩) ⟨11, "user"⟩ 1
        { tasks := [sampleTask, sampleDone], users := [] }).db.tasks 1 = none :=
  have h := deleteTask_removes (some ⟨false⟩) ⟨11, "user"⟩ 1
    { tasks := [sampleTask, sampleDone], users := [] } (by decide) (by decide)
  ⟨h.1.trans (by decide), h.2.2.1⟩

/-! ## Runs of updates -/

theorem updateTask_ok_saved (io : Option SocketServer) (actor : Actor) (id : ObjectId)
    (body : Body) (db : Db) (hok : (updateTask io actor id body db).status = 200) :
    ∃ t, (updateTask io actor id body db).body = .taskData true t ∧
      findById (updateTask io actor id body db).db.tasks id = some t ∧
      (io = none → (updateTask io actor id body db).emitted = []) ∧
      (∀ server, io = some server →
        (updateTask io actor id body db).emitted = [.taskUpdated t]) := by
  rcases hfind : findById db.tasks id with _ | task
  · simp [updateTask, hfind] at hok
  · have hsaved : ∀ t : Task, t._id = task._id →
        updateTask io actor id body db = saveAndPublish io db t →
        ∃ t, (updateTask io actor id body db).body = .taskData true t ∧
          findById (updateTask io actor id body db).db.tasks id = some t ∧
          (io = none → (updateTask io actor id body db).emitted = []) ∧
          (∀ server, io = some server →
            (updateTask io actor id body db).emitted = [.taskUpdated t]) := by
      intro t hid heq
      rw [heq] at hok ⊢
      obtain ⟨_, hdb, hbody⟩ := saveAndPublish_status_ok hok
      have hem := saveAndPublish_emitted io db t hok
      refine ⟨t, hbody, by rw [hdb]; exact findById_saved hfind hid, fun hio => ?_,
        fun server hio => ?_⟩
      · subst hio
        exact hem
      · subst hio
        exact hem
    by_cases ha : task.assignedTo = actor.id
    · exact hsaved (assignAllowed body task) (by rw [assignAllowed_eq])
        (updateTask_assignee_eq io actor id body db task hfind ha hok)
    · by_cases hadmin : actor.role = "admin"
      · exact hsaved (objectAssign body task) rfl
          (updateTask_admin_eq io actor id body db task hfind ha hadmin hok)
      · rw [updateTask_forbidden_eq io actor id body db task hfind ha hadmin] at hok
        simp at hok

/-- C26. For every run of `updateTask` requests on one id in which each request answers 200:
every answer carries the task its own update persisted, and with a socket server registered
the event log is, position by position, the `taskUpdated` event of each update in the order
the updates were issued, carrying that task (one event per update); with no socket server
registered the log is empty. -/
theorem update_events_in_order (io : Option SocketServer) (id : ObjectId)
    (requests : List (Actor × Body)) (db : Db)
    (hok : ∀ r ∈ updateSequence io id requests db, r.status = 200) :
    (updateSequence io id requests db).length = requests.length ∧
      (∀ r ∈ updateSequence io id requests db,
        ∃ t, r.body = .taskData true t ∧ findById r.db.tasks id = some t) ∧
      (∀ server, io = some server →
        (eventLog (updateSequence io id requests db)).map some =
          (updateSequence io id requests db).map
            (fun r => r.body.task?.map Event.taskUpdated)) ∧
      (io = none → eventLog (updateSequence io id requests db) = []) := by
  induction requests generalizing db with
  | nil =>
    refine ⟨rfl, fun r hr => ?_, fun _ _ => rfl, fun _ => rfl⟩
    simp [updateSequence] at hr
  | cons request rest ih =>
    obtain ⟨actor, body⟩ := request
    have hhead : (updateTask io actor id body db).status = 200 :=
      hok _ (by simp [updateSequence])
    have htail : ∀ r ∈ updateSequence io id rest (updateTask io actor id body db).db,
        r.status = 200 := fun r hr => hok r (by simp [updateSequence, hr])
    obtain ⟨hlen, hdocs, hlog, hempty⟩ := ih (updateTask io actor id body db).db htail
    obtain ⟨t, hbody, hfound, hnone, hsome⟩ := updateTask_ok_saved io actor id body db hhead
    refine ⟨by simp [updateSequence, hlen], fun r hr => ?_, fun server hio => ?_, fun hio => ?_⟩
    · simp only [updateSequence, List.mem_cons] at hr
      rcases hr with rfl | hr
      · exact ⟨t, hbody, hfound⟩
      · exact hdocs r hr
    · have he : (updateTask io actor id body db).emitted = [.taskUpdated t] :=
        hsome server hio
      simp only [updateSequence, eventLog, List.map_cons, List.flatten_cons, he,
        List.map_append, List.singleton_append]
      have := hlog server hio
      simp only [eventLog] at this
      rw [this, hbody]
      rfl
    · have he : (updateTask io actor id body db).emitted = [] := hnone hio
      have := hempty hio
      simp only [eventLog] at this
      simp only [updateSequence, eventLog, List.map_cons, List.flatten_cons, he, this,
        List.nil_append]

/-- Witness of C26: the assignee and then an admin rename the sample task. -/
theorem update_events_in_order_witness :
    (eventLog (updateSequence (some ⟨false⟩) 1
        [(⟨10, "user"⟩, { Body.empty with title := some "A" }),
         (⟨20, "admin"⟩, { Body.empty with title := some "B" })] sampleDb)).map some =
      (updateSequence (some ⟨false⟩) 1
        [(⟨10, "user"⟩, { Body.empty with title := some "A" }),
         (⟨20, "admin"⟩, { Body.empty with title := some "B" })] sampleDb).map
        (fun r => r.body.task?.map Event.taskUpdated) :=
  (update_events_in_order (some ⟨false⟩) 1
    [(⟨10, "user"⟩, { Body.empty with title := some "A" }),
     (⟨20, "admin"⟩, { Body.empty with title := some "B" })] sampleDb
    (by decide)).2.2.1 ⟨false⟩ rfl

/-! ## The Tasks page -/

/-- C27 (code bug). The controller publishes a creation under the name `taskAdded`, for
which the Tasks page registers no listener (it listens for `taskCreated`): delivering the
creation event leaves every cache as it was. For an empty cache the new task is not added,
whereas the handler registered under `taskCreated` would have prepended it. -/
theorem creation_event_not_handled :
    (∀ (task : Task) (prev : List Doc), deliver (.taskAdded task) prev = prev) ∧
      (Event.taskAdded sampleDone).name = "taskAdded" ∧
      deliver (.taskAdded sampleDone) [] = [] ∧
      Doc.task sampleDone ∉ deliver (.taskAdded sampleDone) [] ∧
      tasksPageOn "taskCreated" (.task sampleDone) [] = [Doc.task sampleDone] := by
  refine ⟨fun task prev => ?_, rfl, by decide, by decide, by decide⟩
  simp [deliver, tasksPageOn, Event.name]

/-! ## No socket server registered -/

theorem saveAndPublish_unregistered {server : SocketServer} (hquiet : server.raises = false)
    (db : Db) (task : Task) :
    saveAndPublish none db task = { saveAndPublish (some server) db task with emitted := [] } := by
  unfold saveAndPublish save emit
  by_cases hv : validate task = true <;> simp [hv, hquiet]

/-- C28. With no socket server registered (`io` undefined, the state the controller starts
in), `createTask`, `updateTask`, `deleteTask` and `markTaskComplete` give the same status,
the same body and the same database as with a registered socket server whose `emit` does
not raise, and they emit no event. -/
theorem unregistered_same_answers (server : SocketServer) (hquiet : server.raises = false)
    (newId : ObjectId) (actor : Actor) (id : ObjectId) (body : Body) (db : Db) :
    createTask none newId actor body db =
        { createTask (some server) newId actor body db with emitted := [] } ∧
      updateTask none actor id body db =
        { updateTask (some server) actor id body db with emitted := [] } ∧
      deleteTask none actor id db =
        { deleteTask (some server) actor id db with emitted := [] } ∧
      markTaskComplete none actor id body db =
        { markTaskComplete (some server) actor id body db with emitted := [] } := by
  refine ⟨?_, ?_, ?_, ?_⟩
  · rcases hc : create db newId body.title body.description body.priority
      (body.isNull .priority) body.dueDate body.assignedTo actor.id with e | ⟨task, db1⟩ <;>
      simp [createTask, hc, emit, hquiet]
  · rcases hfind : findById db.tasks id with _ | task
    · simp [updateTask, hfind]
    · simp only [updateTask, hfind]
      split
      · split
        · rfl
        · exact saveAndPublish_unregistered hquiet db _
      · split
        · split
          · rfl
          · exact saveAndPublish_unregistered hquiet db _
        · rfl
  · rcases hfind : findById db.tasks id with _ | task
    · simp [deleteTask, hfind]
    · by_cases hg : (task.createdBy != actor.id && actor.role != "admin") = true
      · simp [deleteTask, hfind, hg]
      · simp [deleteTask, hfind, hg, emit, hquiet]
  · rcases hfind : findById db.tasks id with _ | task
    · simp [markTaskComplete, hfind]
    · simp only [markTaskComplete, hfind]
      split
      · rfl
      · exact saveAndPublish_unregistered hquiet db _

/-- Witness of C28: the assignee renames the sample task with and without a socket server. -/
theorem unregistered_same_answers_witness :
    updateTask none ⟨10, "user"⟩ 1 { Body.empty with title := some "T" } sampleDb =
      { updateTask (some ⟨false⟩) ⟨10, "user"⟩ 1 { Body.empty with title := some "T" } sampleDb
        with emitted := [] } :=
  (unregistered_same_answers ⟨false⟩ rfl 2 ⟨10, "user"⟩ 1
    { Body.empty with title := some "T" } sampleDb).2.1

/-! ## The list request -/

/-- C29. The answer of `getTasks` does not depend on the query of the request: two list
requests of the same actor on the same database get the same answer (same tasks, same
order, same count) whatever their `status`, `priority`, `search`, `assignedTo`, `sortBy`
and `sortOrder`. A request for `status=completed` sorted by title still lists the sample
task, whose status is `todo`. -/
theorem getTasks_ignores_query :
    (∀ (first second : Query) (actor : Actor) (db : Db),
        getTasksRequest first actor db = getTasksRequest second actor db) ∧
      getTasksRequest
          { status := some "completed", priority := none, search := none, assignedTo := none,
            sortBy := some "title", sortOrder := some "asc" } ⟨10, "user"⟩ sampleDb =
        getTasks ⟨10, "user"⟩ sampleDb ∧
      (getTasks ⟨10, "user"⟩ sampleDb).body =
        .taskList true 1 [populate sampleDb.users sampleTask] ∧
      sampleTask.status = some "todo" :=
  ⟨fun _ _ _ _ => rfl, rfl, by decide, rfl⟩

/-! ## Cache handlers of the Tasks page -/

theorem onTaskUpdated_idem (payload : Doc) (prev : List Doc) :
    onTaskUpdated payload (onTaskUpdated payload prev) = onTaskUpdated payload prev := by
  simp only [onTaskUpdated, List.map_map]
  apply List.map_congr_left
  intro entry _
  by_cases h : entry._id = payload._id
  · simp [h]
  · simp [h]

theorem onTaskDeleted_idem (payload : Doc) (prev : List Doc) :
    onTaskDeleted payload (onTaskDeleted payload prev) = onTaskDeleted payload prev := by
  simp [onTaskDeleted, List.filter_filter]

/-- C30. For every cache and payload of the Tasks page: the `taskUpdated` handler keeps the
length of the cache and puts, at each position, the payload where the cached entry has the
`_id` of the payload and the cached entry itself otherwise, so a cache without that `_id`
is returned unchanged; the `taskDeleted` handler returns, in order, the entries whose `_id`
is not the payload; each handler applied twice with the same payload gives what it gives
applied once; the events `taskUpdated` and `taskDeleted` of the controller reach these
handlers. Spelled out on the entries: for the id `i` as payload, `taskDeleted` keeps a
cached task exactly when its `_id` differs from `i` (so no entry with that `_id` is left, and
every other entry is), and a payload that is not an id deletes nothing; for the task `t` as
payload, `taskUpdated` replaces exactly the cached tasks whose `_id` is that of `t`. On the
cache of the two sample tasks, deleting id 1 leaves the second task and updating the first
task replaces it in place. -/
theorem tasksPage_handlers (payload : Doc) (prev : List Doc) :
    (onTaskUpdated payload prev).length = prev.length ∧
      (∀ i : Nat, (onTaskUpdated payload prev)[i]? =
        (prev[i]?).map (fun entry => if entry._id = payload._id then payload else entry)) ∧
      ((∀ entry ∈ prev, entry._id ≠ payload._id) → onTaskUpdated payload prev = prev) ∧
      onTaskDeleted payload prev = prev.filter (fun entry => !(entry.idIs payload)) ∧
      (onTaskDeleted payload prev).Sublist prev ∧
      (∀ entry, entry ∈ onTaskDeleted payload prev ↔
        entry ∈ prev ∧ entry.idIs payload = false) ∧
      onTaskUpdated payload (onTaskUpdated payload prev) = onTaskUpdated payload prev ∧
      onTaskDeleted payload (onTaskDeleted payload prev) = onTaskDeleted payload prev ∧
      (∀ task : Task, deliver (.taskUpdated task) prev = onTaskUpdated (.task task) prev) ∧
      (∀ id : ObjectId, deliver (.taskDeleted id) prev = onTaskDeleted (.id id) prev) ∧
      (∀ id : ObjectId,
        onTaskDeleted (.id id) prev =
          prev.filter (fun entry =>
            match entry with
            | .listed listed => decide (listed._id ≠ id)
            | .task task => decide (task._id ≠ id)
            | .id _ => true)) ∧
      (∀ (id : ObjectId) (task : Task),
        Doc.task task ∈ onTaskDeleted (.id id) prev ↔ Doc.task task ∈ prev ∧ task._id ≠ id) ∧
      (∀ (id : ObjectId) (listed : PopulatedTask),
        Doc.listed listed ∈ onTaskDeleted (.id id) prev ↔
          Doc.listed listed ∈ prev ∧ listed._id ≠ id) ∧
      (∀ task : Task, onTaskDeleted (.task task) prev = prev) ∧
      (∀ listed : PopulatedTask, onTaskDeleted (.listed listed) prev = prev) ∧
      (∀ task : Task,
        onTaskUpdated (.task task) prev =
          prev.map (fun entry =>
            match entry with
            | .listed listed => if listed._id = task._id then .task task else entry
            | .task cached => if cached._id = task._id then .task task else entry
            | .id _ => entry)) ∧
      onTaskDeleted (.id 1) [.task sampleTask, .task sampleDone] = [.task sampleDone] ∧
      onTaskDeleted (.id 3) [.task sampleTask, .task sampleDone] =
        [.task sampleTask, .task sampleDone] ∧
      onTaskUpdated (.task { sampleTask with status := some "completed" })
          [.task sampleTask, .task sampleDone] =
        [.task { sampleTask with status := some "completed" }, .task sampleDone] := by
  have hdeleted : ∀ id : ObjectId,
      onTaskDeleted (.id id) prev =
        prev.filter (fun entry =>
          match entry with
          | .listed listed => decide (listed._id ≠ id)
          | .task task => decide (task._id ≠ id)
          | .id _ => true) := by
    intro id
    simp only [onTaskDeleted]
    apply List.filter_congr
    intro entry _
    cases entry with
    | listed listed => by_cases h : listed._id = id <;> simp [Doc.idIs, Doc._id, h]
    | task task => by_cases h : task._id = id <;> simp [Doc.idIs, Doc._id, h]
    | id other => simp [Doc.idIs, Doc._id]
  refine ⟨by simp [onTaskUpdated], fun i => ?_, fun habsent => ?_, rfl,
    List.filter_sublist _, fun entry => ?_, onTaskUpdated_idem payload prev,
    onTaskDeleted_idem payload prev, fun task => ?_, fun id => ?_, hdeleted,
    fun id task => ?_, fun id listed => ?_, fun task => ?_, fun listed => ?_, fun task => ?_,
    by decide, by decide, by decide⟩
  · simp only [onTaskUpdated, List.getElem?_map]
    congr 1
    funext entry
    by_cases h : entry._id = payload._id <;> simp [h]
  · simp only [onTaskUpdated]
    conv_rhs => rw [← List.map_id prev]
    apply List.map_congr_left
    intro entry hentry
    simp [habsent entry hentry]
  · simp [onTaskDeleted, List.mem_filter]
  · simp [deliver, tasksPageOn, Event.name, Event.payload]
  · simp [deliver, tasksPageOn, Event.name, Event.payload]
  · rw [hdeleted, List.mem_filter]
    simp
  · rw [hdeleted, List.mem_filter]
    simp
  · simp [onTaskDeleted, Doc.idIs]
  · simp [onTaskDeleted, Doc.idIs]
  · simp only [onTaskUpdated]
    apply List.map_congr_left
    intro entry _
    cases entry <;> simp [Doc._id]

/-! ## Task ids stay unique -/

theorem ids_replaceDoc (task : Task) (tasks : List Task) :
    (replaceDoc task tasks).map (fun t => t._id) = tasks.map (fun t => t._id) := by
  induction tasks with
  | nil => rfl
  | cons t ts ih =>
    unfold replaceDoc
    by_cases h : t._id = task._id
    · simp [h]
    · simp [h, ih]

theorem removeDoc_sublist (id : ObjectId) (tasks : List Task) :
    (removeDoc id tasks).Sublist tasks := by
  induction tasks with
  | nil => exact List.Sublist.refl _
  | cons t ts ih =>
    unfold removeDoc
    split
    · exact List.sublist_cons_self t ts
    · exact ih.cons₂ t

theorem saveAndPublish_ids (io : Option SocketServer) (db : Db) (task : Task) :
    (saveAndPublish io db task).db.tasks.map (fun t => t._id) =
      db.tasks.map (fun t => t._id) := by
  unfold saveAndPublish save
  by_cases hv : validate task = true
  · simp only [hv, if_true]
    rcases emit io (.taskUpdated task) with e | events <;> exact ids_replaceDoc task db.tasks
  · simp [hv]

theorem not_mem_ids_of_findById_none {tasks : List Task} {id : ObjectId}
    (h : findById tasks id = none) : id ∉ tasks.map (fun t => t._id) := by
  simp only [findById, List.find?_eq_none] at h
  intro hmem
  obtain ⟨t, ht, hid⟩ := List.mem_map.mp hmem
  exact h t ht (by simpa using hid)

theorem reachable_unique_ids {db : Db} (h : Reachable db) :
    (db.tasks.map (fun t => t._id)).Nodup := by
  induction h with
  | init users => exact List.nodup_nil
  | @afterCreate db0 io newId actor body _ ih =>
    rcases createTask_cases io newId actor body db0 with ⟨h, _, _⟩ | ⟨task, db1, hc, h, _⟩
    · rw [h]; exact ih
    · obtain ⟨_, _, _, _, htask, _, hfresh, hdb1⟩ := create_ok hc
      rw [h, hdb1]
      have hid : task._id = newId := by rw [htask]
      simp only [List.map_append, List.map_cons, List.map_nil]
      refine List.Nodup.append ih (List.nodup_singleton _) ?_
      intro x hx hx2
      rw [List.mem_singleton] at hx2
      rw [hx2, hid] at hx
      exact not_mem_ids_of_findById_none hfresh hx
  | @afterUpdate db0 io actor id body _ ih =>
    have : (updateTask io actor id body db0).db.tasks.map (fun t => t._id) =
        db0.tasks.map (fun t => t._id) := by
      unfold updateTask
      split
      · rfl
      · split
        · split
          · rfl
          · exact saveAndPublish_ids io db0 _
        · split
          · split
            · rfl
            · exact saveAndPublish_ids io db0 _
          · rfl
    rw [this]; exact ih
  | @afterDelete db0 io actor id _ ih =>
    have : ((deleteTask io actor id db0).db.tasks).Sublist db0.tasks := by
      unfold deleteTask
      split
      · exact List.Sublist.refl _
      · split
        · exact List.Sublist.refl _
        · simp only
          split <;> exact removeDoc_sublist id db0.tasks
    exact (this.map _).nodup ih
  | @afterComplete db0 io actor id body _ ih =>
    have : (markTaskComplete io actor id body db0).db.tasks.map (fun t => t._id) =
        db0.tasks.map (fun t => t._id) := by
      unfold markTaskComplete
      split
      · rfl
      · split
        · rfl
        · exact saveAndPublish_ids io db0 _
    rw [this]; exact ih

end TaskTracker
